import Mathlib

/-!
# Verification of the gossipsub peer-scoring core

A shallow embedding of the peer-scoring subsystem (`src/ts/tracer.ts`:
the `IWantTracer` class and the `PeerScore` class) of the
quorum-gossipsub repository, together with theorems settling the frozen
claims about its specification.

Modelling conventions:
* JS `Map`s (which preserve insertion order) are association lists
  `List (String × α)`; `Map.get` is `lookupA`, `Map.set` is `insertA`
  (replace-in-place or append), `Map.delete` is `eraseA`.
* JS `Set`s of strings are `List String` kept duplicate-free by
  inserting only absent elements (`addIfAbsent`).
* Numbers (`Date.now()` timestamps and score counters) are rationals.
* The asynchronous message-id function is external; a message is
  modelled as carrying its already-computed id string.
* The connection manager is external; its response is passed as an
  argument to the operations that consult it (`addPeer`, `_updateIPs`).
-/

namespace Gossipsub

/-- `Map.get` on an insertion-ordered association list. -/
def lookupA {α : Type} : List (String × α) → String → Option α
  | [], _ => none
  | e :: rest, k => if e.1 = k then some e.2 else lookupA rest k

/-- `Map.set` on an insertion-ordered association list: replaces the
value in place if the key is present, otherwise appends the binding. -/
def insertA {α : Type} : List (String × α) → String → α → List (String × α)
  | [], k, v => [(k, v)]
  | e :: rest, k, v => if e.1 = k then (k, v) :: rest else e :: insertA rest k v

/-- `Map.delete` on an association list (removes the binding of the key). -/
def eraseA {α : Type} : List (String × α) → String → List (String × α)
  | [], _ => []
  | e :: rest, k => if e.1 = k then rest else e :: eraseA rest k

/-- `Set.add`: append an element only if it is absent. -/
def addIfAbsent (x : String) (l : List String) : List String :=
  if x ∈ l then l else l ++ [x]

/-- The keys of an association list are duplicate-free (true of every
JS `Map`; maintained by `insertA`/`eraseA`). -/
def NodupKeys {α : Type} (m : List (String × α)) : Prop :=
  (m.map Prod.fst).Nodup

theorem lookupA_insertA {α : Type} (m : List (String × α)) (k : String) (v : α)
    (k' : String) :
    lookupA (insertA m k v) k' = if k' = k then some v else lookupA m k' := by
  induction m with
  | nil =>
      by_cases h : k' = k
      · subst h; simp [insertA, lookupA]
      · have h1 : ¬k = k' := fun hh => h hh.symm
        simp only [insertA, lookupA, if_neg h, if_neg h1]
  | cons e rest ih =>
      by_cases he : e.1 = k
      · by_cases h : k' = k
        · subst h
          simp only [insertA, he, if_true, lookupA, if_pos rfl, if_pos he]
        · have h1 : ¬k = k' := fun hh => h hh.symm
          have h2 : ¬e.1 = k' := by rw [he]; exact h1
          simp only [insertA, he, if_true, lookupA, if_neg h, if_neg h1,
            if_neg h2]
      · by_cases h' : e.1 = k'
        · have hkk : ¬k' = k := fun hh => he (h'.trans hh)
          simp only [insertA, he, if_false, lookupA, if_pos h', if_neg hkk]
        · simp only [insertA, he, if_false, lookupA, if_neg h', ih]

theorem lookupA_eraseA_ne {α : Type} (m : List (String × α)) (k k' : String)
    (h : k' ≠ k) : lookupA (eraseA m k) k' = lookupA m k' := by
  induction m with
  | nil => simp [eraseA]
  | cons e rest ih =>
      by_cases he : e.1 = k
      · have h2 : ¬e.1 = k' := by rw [he]; exact fun hh => h hh.symm
        have h3 : ¬k = k' := fun hh => h hh.symm
        simp only [eraseA, he, if_true, lookupA, if_neg h2, if_neg h3]
      · by_cases h' : e.1 = k'
        · simp only [eraseA, he, if_false, lookupA, if_pos h']
        · simp only [eraseA, he, if_false, lookupA, if_neg h', ih]

theorem lookupA_eq_none_of_not_mem_keys {α : Type} (m : List (String × α))
    (k : String) (h : k ∉ m.map Prod.fst) : lookupA m k = none := by
  induction m with
  | nil => rfl
  | cons e rest ih =>
      simp only [List.map_cons, List.mem_cons, not_or] at h
      have he : ¬e.1 = k := fun hh => h.1 hh.symm
      simp [lookupA, he, ih h.2]

theorem lookupA_eraseA_self {α : Type} (m : List (String × α)) (k : String)
    (h : NodupKeys m) : lookupA (eraseA m k) k = none := by
  induction m with
  | nil => rfl
  | cons e rest ih =>
      simp only [NodupKeys, List.map_cons, List.nodup_cons] at h
      by_cases he : e.1 = k
      · subst he
        simpa [eraseA] using lookupA_eq_none_of_not_mem_keys rest e.1 h.1
      · simp [eraseA, lookupA, he, ih h.2]

theorem mem_keys_of_lookupA {α : Type} (m : List (String × α)) (k : String)
    (v : α) (h : lookupA m k = some v) : k ∈ m.map Prod.fst := by
  induction m with
  | nil => simp [lookupA] at h
  | cons e rest ih =>
      by_cases he : e.1 = k
      · simp [he]
      · simp only [lookupA, he, if_false] at h
        simp [ih h]

theorem mem_of_lookupA {α : Type} (m : List (String × α)) (k : String) (v : α)
    (h : lookupA m k = some v) : (k, v) ∈ m := by
  induction m with
  | nil => simp [lookupA] at h
  | cons e rest ih =>
      by_cases he : e.1 = k
      · simp only [lookupA, he, if_true, Option.some.injEq] at h
        have : e = (k, v) := by
          cases e; simp_all
        rw [← this]
        exact List.mem_cons_self _ _
      · simp only [lookupA, he, if_false] at h
        exact List.mem_cons_of_mem _ (ih h)

theorem mem_insertA {α : Type} (m : List (String × α)) (k : String) (v : α)
    (e : String × α) (h : e ∈ insertA m k v) : e = (k, v) ∨ e ∈ m := by
  induction m with
  | nil => simp [insertA] at h; simp [h]
  | cons e' rest ih =>
      by_cases he : e'.1 = k
      · simp only [insertA, he, if_true, List.mem_cons] at h
        rcases h with h | h
        · exact Or.inl h
        · exact Or.inr (List.mem_cons_of_mem _ h)
      · simp only [insertA, he, if_false, List.mem_cons] at h
        rcases h with h | h
        · exact Or.inr (by simp [h])
        · rcases ih h with h' | h'
          · exact Or.inl h'
          · exact Or.inr (List.mem_cons_of_mem _ h')

theorem mem_eraseA {α : Type} (m : List (String × α)) (k : String)
    (e : String × α) (h : e ∈ eraseA m k) : e ∈ m := by
  induction m with
  | nil => simp [eraseA] at h
  | cons e' rest ih =>
      by_cases he : e'.1 = k
      · simp only [eraseA, he, if_true] at h
        exact List.mem_cons_of_mem _ h
      · simp only [eraseA, he, if_false, List.mem_cons] at h
        rcases h with h | h
        · simp [h]
        · exact List.mem_cons_of_mem _ (ih h)

theorem keys_insertA_subset {α : Type} (m : List (String × α)) (k : String)
    (v : α) : (insertA m k v).map Prod.fst ⊆ k :: m.map Prod.fst := by
  induction m with
  | nil => simp [insertA]
  | cons e rest ih =>
      by_cases he : e.1 = k
      · simp only [insertA, he, if_true, List.map_cons]
        intro a ha
        simp only [List.mem_cons] at ha ⊢
        rcases ha with ha | ha
        · exact Or.inl ha
        · exact Or.inr (Or.inr ha)
      · simp only [insertA, he, if_false, List.map_cons]
        intro a ha
        simp only [List.mem_cons] at ha ⊢
        rcases ha with ha | ha
        · exact Or.inr (Or.inl ha)
        · rcases List.mem_cons.mp (ih ha) with h1 | h1
          · exact Or.inl h1
          · exact Or.inr (Or.inr h1)

theorem nodupKeys_insertA {α : Type} (m : List (String × α)) (k : String)
    (v : α) (h : NodupKeys m) : NodupKeys (insertA m k v) := by
  induction m with
  | nil => simp [NodupKeys, insertA]
  | cons e rest ih =>
      simp only [NodupKeys, List.map_cons, List.nodup_cons] at h
      by_cases he : e.1 = k
      · subst he
        simpa [NodupKeys, insertA] using h
      · simp only [insertA, he, if_false, NodupKeys, List.map_cons,
          List.nodup_cons]
        refine ⟨fun hc => ?_, ih h.2⟩
        rcases List.mem_cons.mp (keys_insertA_subset rest k v hc) with h1 | h1
        · exact he h1
        · exact h.1 h1

theorem lookupA_mapValues {α β : Type} (m : List (String × α))
    (g : String → α → β) (k : String) :
    lookupA (m.map (fun e => (e.1, g e.1 e.2))) k = (lookupA m k).map (g k) := by
  induction m with
  | nil => rfl
  | cons e rest ih =>
      by_cases he : e.1 = k
      · subst he; simp [lookupA, ih]
      · simp [lookupA, he, ih]

theorem nodupKeys_eraseA {α : Type} (m : List (String × α)) (k : String)
    (h : NodupKeys m) : NodupKeys (eraseA m k) := by
  induction m with
  | nil => simp [NodupKeys, eraseA]
  | cons e rest ih =>
      simp only [NodupKeys, List.map_cons, List.nodup_cons] at h
      by_cases he : e.1 = k
      · simpa [eraseA, he, NodupKeys] using h.2
      · simp only [eraseA, he, if_false, NodupKeys, List.map_cons,
          List.nodup_cons]
        refine ⟨fun hc => ?_, ih h.2⟩
        have hsub : eraseA rest k ⊆ rest := fun x hx => mem_eraseA rest k x hx
        exact h.1 (List.map_subset Prod.fst hsub hc)

/-! ## Data model (spec §3, tracer.ts) -/

/-- Rejection reason codes consumed by the core (spec §6 gives the
bit-exact string constants re-exported from libp2p-interfaces). -/
def ERR_MISSING_SIGNATURE : String := "ERR_MISSING_SIGNATURE"

/-- See `ERR_MISSING_SIGNATURE`. -/
def ERR_INVALID_SIGNATURE : String := "ERR_INVALID_SIGNATURE"

/-- See `ERR_MISSING_SIGNATURE`. -/
def ERR_TOPIC_VALIDATOR_IGNORE : String := "ERR_TOPIC_VALIDATOR_IGNORE"

/-- Modelled from the spec: the `TimeCacheDuration` retention constant of
the missing message-deliveries.ts (`EnsureRecord` sets
`expire = now + TimeCacheDuration`). Its concrete value is irrelevant to
the claims. -/
def timeCacheDuration : ℚ := 120000

/-- Per-topic score parameters (spec §4.1; the fields of the missing
peer-score-params.ts that tracer.ts reads). -/
structure TopicScoreParams where
  topicWeight : ℚ := 1
  timeInMeshWeight : ℚ := 0
  timeInMeshQuantum : ℚ := 1
  timeInMeshCap : ℚ := 3600
  firstMessageDeliveriesWeight : ℚ := 1
  firstMessageDeliveriesDecay : ℚ := 1/2
  firstMessageDeliveriesCap : ℚ := 100
  meshMessageDeliveriesWeight : ℚ := -1
  meshMessageDeliveriesDecay : ℚ := 1/2
  meshMessageDeliveriesCap : ℚ := 100
  meshMessageDeliveriesThreshold : ℚ := 5
  meshMessageDeliveriesWindow : ℚ := 10
  meshMessageDeliveriesActivation : ℚ := 1000
  meshFailurePenaltyWeight : ℚ := -1
  meshFailurePenaltyDecay : ℚ := 1/2
  invalidMessageDeliveriesWeight : ℚ := -1
  invalidMessageDeliveriesDecay : ℚ := 1/2
deriving DecidableEq

/-- Global score parameters (spec §4.1). `appSpecificScore` is the
caller-supplied callback. -/
structure PeerScoreParams where
  topics : List (String × TopicScoreParams) := []
  topicScoreCap : ℚ := 0
  appSpecificScore : String → ℚ := fun _ => 0
  appSpecificWeight : ℚ := 0
  IPColocationFactorWeight : ℚ := 0
  IPColocationFactorThreshold : ℚ := 1
  IPColocationFactorWhitelist : List String := []
  behaviourPenaltyWeight : ℚ := 0
  behaviourPenaltyThreshold : ℚ := 0
  behaviourPenaltyDecay : ℚ := 1/2
  decayInterval : ℚ := 1000
  decayToZero : ℚ := 1/100
  retainScore : ℚ := 3600000

/-- Per-(peer, topic) stats (spec §3 TopicStats). -/
structure TopicStats where
  inMesh : Bool
  graftTime : ℚ
  meshTime : ℚ
  firstMessageDeliveries : ℚ
  meshMessageDeliveries : ℚ
  meshMessageDeliveriesActive : Bool
  meshFailurePenalty : ℚ
  invalidMessageDeliveries : ℚ
deriving DecidableEq

/-- Modelled from the spec: `createTopicStats` of the missing
peer-stats.ts — a freshly created TopicStats starts with all counters
zero, out of the mesh, and the mesh-delivery gate inactive. -/
def initialTopicStats : TopicStats :=
  { inMesh := false, graftTime := 0, meshTime := 0,
    firstMessageDeliveries := 0, meshMessageDeliveries := 0,
    meshMessageDeliveriesActive := false, meshFailurePenalty := 0,
    invalidMessageDeliveries := 0 }

/-- Per-peer stats (spec §3 PeerStats). -/
structure PeerStats where
  connected : Bool
  expire : ℚ
  topics : List (String × TopicStats)
  behaviourPenalty : ℚ
  ips : List String
deriving DecidableEq

/-- Modelled from the spec: `createPeerStats` of the missing
peer-stats.ts — a fresh PeerStats has no topic stats, no behavioural
penalty and no IPs yet. -/
def createPeerStats (connected : Bool) : PeerStats :=
  { connected := connected, expire := 0, topics := [],
    behaviourPenalty := 0, ips := [] }

/-- Delivery status of a message record (missing message-deliveries.ts;
statuses named in spec §3). -/
inductive DeliveryRecordStatus where
  | unknown
  | valid
  | invalid
  | ignored
deriving DecidableEq

/-- One delivery record per recently seen message id (spec §3). -/
structure DeliveryRecord where
  status : DeliveryRecordStatus
  firstSeen : ℚ
  validated : ℚ
  peers : List String
  expire : ℚ
deriving DecidableEq

/-- Modelled from the spec: the `MessageDeliveries` store of the missing
message-deliveries.ts — a map from message id to record plus a FIFO
queue of ids for expiry. -/
structure MessageDeliveries where
  records : List (String × DeliveryRecord)
  queue : List String
deriving DecidableEq

/-- Modelled from the spec: `EnsureRecord(msgId)` returns the existing
record, or creates one in `Unknown` with `firstSeen = now` and
`expire = now + TimeCacheDuration` and pushes it on the FIFO queue. -/
def ensureRecord (now : ℚ) (msgId : String) (dr : MessageDeliveries) :
    DeliveryRecord × MessageDeliveries :=
  match lookupA dr.records msgId with
  | some r => (r, dr)
  | none =>
      let r : DeliveryRecord :=
        { status := .unknown, firstSeen := now, validated := 0, peers := [],
          expire := now + timeCacheDuration }
      (r, { records := insertA dr.records msgId r, queue := dr.queue ++ [msgId] })

/-- An inbound message as the scoring hooks see it: `receivedFrom` and
`topicIDs` of the InMessage, plus the message id already computed by the
external deterministic MessageIdFunction (the hooks await it before any
state mutation). -/
structure Message where
  receivedFrom : String
  topicIDs : List String
  msgId : String
deriving DecidableEq

/-- The mutable state of a `PeerScore` instance: the three maps of
tracer.ts plus whether the background interval is installed
(`_backgroundInterval !== undefined`). The (immutable) params are passed
to each operation separately. -/
structure PeerScoreState where
  peerStats : List (String × PeerStats)
  peerIPs : List (String × List String)
  deliveryRecords : MessageDeliveries
  running : Bool
deriving DecidableEq

/-- The state of a freshly constructed `PeerScore`. -/
def emptyState : PeerScoreState :=
  { peerStats := [], peerIPs := [], deliveryRecords := ⟨[], []⟩,
    running := false }

/-! ## Counter updates (tracer.ts `_mark*`) -/

/-- `x += 1` followed by the cap clamp used by the mark functions. -/
def clampCap (cap x : ℚ) : ℚ := if x > cap then cap else x

/-- The common shape of the three `_mark*` loops: for each topic of the
message, `ensureTopicStats` (modelled from the spec: the missing
peer-stats.ts returns undefined — skip — for a topic that is not in
`params.topics`, and otherwise returns the existing TopicStats or
lazily creates a fresh one), then update it with `f`. -/
def applyScoredTopics (params : PeerScoreParams)
    (f : TopicScoreParams → TopicStats → TopicStats)
    (topics : List String) (ps : PeerStats) : PeerStats :=
  topics.foldl
    (fun ps topic =>
      match lookupA params.topics topic with
      | none => ps
      | some tp =>
          let ts := (lookupA ps.topics topic).getD initialTopicStats
          { ps with topics := insertA ps.topics topic (f tp ts) })
    ps

/-- The per-topic body of tracer.ts `_markInvalidMessageDelivery`. -/
def markInvalidTopic (_tp : TopicScoreParams) (ts : TopicStats) : TopicStats :=
  { ts with invalidMessageDeliveries := ts.invalidMessageDeliveries + 1 }

/-- tracer.ts `_markInvalidMessageDelivery`: increment
`invalidMessageDeliveries` on every scored topic of the message; no-op
for an unknown peer. -/
def _markInvalidMessageDelivery (params : PeerScoreParams) (id : String)
    (msg : Message) (peerStats : List (String × PeerStats)) :
    List (String × PeerStats) :=
  match lookupA peerStats id with
  | none => peerStats
  | some ps =>
      insertA peerStats id
        (applyScoredTopics params markInvalidTopic msg.topicIDs ps)

/-- The per-topic body of tracer.ts `_markFirstMessageDelivery`. -/
def markFirstTopic (tp : TopicScoreParams) (ts : TopicStats) : TopicStats :=
  let fmd := clampCap tp.firstMessageDeliveriesCap
    (ts.firstMessageDeliveries + 1)
  let ts1 := { ts with firstMessageDeliveries := fmd }
  if ts.inMesh then
    let mmd := clampCap tp.meshMessageDeliveriesCap
      (ts1.meshMessageDeliveries + 1)
    { ts1 with meshMessageDeliveries := mmd }
  else ts1

/-- tracer.ts `_markFirstMessageDelivery`: increment and cap
`firstMessageDeliveries` on every scored topic, and also
`meshMessageDeliveries` when the peer is in the mesh for the topic;
no-op for an unknown peer. -/
def _markFirstMessageDelivery (params : PeerScoreParams) (id : String)
    (msg : Message) (peerStats : List (String × PeerStats)) :
    List (String × PeerStats) :=
  match lookupA peerStats id with
  | none => peerStats
  | some ps =>
      insertA peerStats id
        (applyScoredTopics params markFirstTopic msg.topicIDs ps)

/-- The per-topic body of tracer.ts `_markDuplicateMessageDelivery`,
taking the `now` already computed before the loop as
`validatedTime ? Date.now() : 0`. -/
def markDupTopic (validatedTime nowEff : ℚ) (tp : TopicScoreParams)
    (ts : TopicStats) : TopicStats :=
  if ts.inMesh then
    if validatedTime ≠ 0 ∧
        nowEff > validatedTime + tp.meshMessageDeliveriesWindow then
      ts
    else
      let mmd := clampCap tp.meshMessageDeliveriesCap
        (ts.meshMessageDeliveries + 1)
      { ts with meshMessageDeliveries := mmd }
  else ts

/-- tracer.ts `_markDuplicateMessageDelivery`: on every scored topic for
which the peer is in the mesh, increment and cap
`meshMessageDeliveries` unless `validatedTime` is non-zero and `now` is
past the mesh-delivery window; no-op for an unknown peer. The source
computes `now = validatedTime ? Date.now() : 0` once before the loop. -/
def _markDuplicateMessageDelivery (params : PeerScoreParams) (id : String)
    (msg : Message) (validatedTime now : ℚ)
    (peerStats : List (String × PeerStats)) : List (String × PeerStats) :=
  match lookupA peerStats id with
  | none => peerStats
  | some ps =>
      let nowEff : ℚ := if validatedTime ≠ 0 then now else 0
      insertA peerStats id
        (applyScoredTopics params (markDupTopic validatedTime nowEff)
          msg.topicIDs ps)

/-! ## Score computation (spec §4.4; compute-score.ts is not in src) -/

/-- Modelled from the spec: `computeScore` of the missing
compute-score.ts — the per-topic contributions capped by
`topicScoreCap`, the application score, the IP-colocation penalty and
the behavioural penalty. -/
def computeScore (params : PeerScoreParams) (id : String) (ps : PeerStats)
    (peerIPs : List (String × List String)) : ℚ :=
  let topicScoreRaw :=
    ps.topics.foldl
      (fun acc e =>
        match lookupA params.topics e.1 with
        | none => acc
        | some tp =>
            let ts := e.2
            let p1 : ℚ :=
              if ts.inMesh then
                min (ts.meshTime / tp.timeInMeshQuantum) tp.timeInMeshCap
              else 0
            let p2 := ts.firstMessageDeliveries
            let p3 : ℚ :=
              if ts.meshMessageDeliveriesActive ∧
                  ts.meshMessageDeliveries < tp.meshMessageDeliveriesThreshold then
                let deficit := tp.meshMessageDeliveriesThreshold - ts.meshMessageDeliveries
                deficit * deficit
              else 0
            let p3b := ts.meshFailurePenalty
            let p4 := ts.invalidMessageDeliveries * ts.invalidMessageDeliveries
            acc + tp.topicWeight *
              (p1 * tp.timeInMeshWeight + p2 * tp.firstMessageDeliveriesWeight +
               p3 * tp.meshMessageDeliveriesWeight + p3b * tp.meshFailurePenaltyWeight +
               p4 * tp.invalidMessageDeliveriesWeight))
      0
  let topicScore :=
    if 0 < params.topicScoreCap ∧ params.topicScoreCap < topicScoreRaw then
      params.topicScoreCap
    else topicScoreRaw
  let appScore := params.appSpecificScore id * params.appSpecificWeight
  let ipScore :=
    ps.ips.foldl
      (fun acc ip =>
        if ip ∈ params.IPColocationFactorWhitelist then acc
        else
          let n : ℚ := ((lookupA peerIPs ip).getD []).length
          if params.IPColocationFactorThreshold < n then
            let surplus := n - params.IPColocationFactorThreshold
            acc + params.IPColocationFactorWeight * surplus * surplus
          else acc)
      0
  let excess := max 0 (ps.behaviourPenalty - params.behaviourPenaltyThreshold)
  topicScore + appScore + ipScore +
    params.behaviourPenaltyWeight * excess * excess

/-- tracer.ts `score`: 0 for an unknown peer, else `computeScore`. -/
def score (params : PeerScoreParams) (st : PeerScoreState) (id : String) : ℚ :=
  match lookupA st.peerStats id with
  | none => 0
  | some ps => computeScore params id ps st.peerIPs

/-! ## IP tracking (tracer.ts `_setIPs` / `_removeIPs` / `_updateIPs`) -/

/-- The body both removal loops share (tracer.ts `_setIPs` second loop
and `_removeIPs`): delete the peer from the bucket of one IP, dropping
the bucket if it becomes empty. -/
def removeIPStep (id : String) (m : List (String × List String))
    (ip : String) : List (String × List String) :=
  match lookupA m ip with
  | none => m
  | some b =>
      let b' := b.erase id
      if b' = [] then eraseA m ip else insertA m ip b'

/-- The body of the first loop of tracer.ts `_setIPs`: register the
peer under one genuinely new IP. -/
def addIPStep (id : String) (oldIPs : List String)
    (m : List (String × List String)) (ip : String) :
    List (String × List String) :=
  if ip ∈ oldIPs then m
  else insertA m ip (addIfAbsent id ((lookupA m ip).getD []))

/-- tracer.ts `_setIPs`: add the peer to the bucket of every genuinely
new IP, then remove it from the bucket of every obsolete IP, deleting
buckets that become empty. -/
def _setIPs (id : String) (newIPs oldIPs : List String)
    (m : List (String × List String)) : List (String × List String) :=
  let m1 := newIPs.foldl (addIPStep id oldIPs) m
  oldIPs.foldl
    (fun m ip => if ip ∈ newIPs then m else removeIPStep id m ip)
    m1

/-- tracer.ts `_removeIPs`: remove the peer from the bucket of every
listed IP, deleting buckets that become empty. -/
def _removeIPs (id : String) (ips : List String)
    (m : List (String × List String)) : List (String × List String) :=
  ips.foldl (removeIPStep id) m

/-! ## Ingest hooks and periodic maintenance (tracer.ts PeerScore) -/

/-- tracer.ts `addPeer`: fresh connected stats, then register the IPs
reported by the external connection manager (passed as `ips`). -/
def addPeer (id : String) (ips : List String) (st : PeerScoreState) :
    PeerScoreState :=
  let pstats := createPeerStats true
  let peerIPs' := _setIPs id ips pstats.ips st.peerIPs
  { st with peerStats := insertA st.peerStats id { pstats with ips := ips },
            peerIPs := peerIPs' }

/-- tracer.ts `addPenalty`: `behaviourPenalty += penalty`; no-op for an
unknown peer. -/
def addPenalty (id : String) (penalty : ℚ) (st : PeerScoreState) :
    PeerScoreState :=
  match lookupA st.peerStats id with
  | none => st
  | some ps =>
      let ps' := { ps with behaviourPenalty := ps.behaviourPenalty + penalty }
      { st with peerStats := insertA st.peerStats id ps' }

/-- The per-topic part of the retention branch of tracer.ts
`removePeer`: reset `firstMessageDeliveries`, apply the sticky
mesh-failure penalty where the gate is active and the rate below
threshold, and leave the mesh. (For a topic missing from
`params.topics` the source would fault reading the threshold; such
topic stats never exist, and the model skips the penalty there.) -/
def retainTopic (params : PeerScoreParams) (e : String × TopicStats) :
    String × TopicStats :=
  (e.1,
    match lookupA params.topics e.1 with
    | some tp =>
        if e.2.inMesh ∧ e.2.meshMessageDeliveriesActive ∧
            e.2.meshMessageDeliveries < tp.meshMessageDeliveriesThreshold then
          { e.2 with
            firstMessageDeliveries := 0
            inMesh := false
            meshFailurePenalty := e.2.meshFailurePenalty + (tp.meshMessageDeliveriesThreshold - e.2.meshMessageDeliveries) * (tp.meshMessageDeliveriesThreshold - e.2.meshMessageDeliveries) }
        else { e.2 with firstMessageDeliveries := 0, inMesh := false }
    | none => { e.2 with firstMessageDeliveries := 0, inMesh := false })

/-- tracer.ts `removePeer`: drop a positively scored peer immediately;
otherwise retain it disconnected until `now + retainScore`, resetting
`firstMessageDeliveries`, applying the sticky mesh-failure penalty and
leaving every mesh. (For a topic missing from `params.topics` the
source would fault reading the threshold; such topic stats never exist,
see `applyScoredTopics`, and the model skips the penalty there.) -/
def removePeer (params : PeerScoreParams) (id : String) (now : ℚ)
    (st : PeerScoreState) : PeerScoreState :=
  match lookupA st.peerStats id with
  | none => st
  | some ps =>
      if 0 < score params st id then
        { st with peerIPs := _removeIPs id ps.ips st.peerIPs,
                  peerStats := eraseA st.peerStats id }
      else
        let ps' := { ps with topics := ps.topics.map (retainTopic params),
                             connected := false,
                             expire := now + params.retainScore }
        { st with peerStats := insertA st.peerStats id ps' }

/-- tracer.ts `graft`: ensure the topic stats and set
`inMesh`/`graftTime`/`meshTime`/`meshMessageDeliveriesActive`; no-op for
an unknown peer or an unscored topic. -/
def graft (params : PeerScoreParams) (id topic : String) (now : ℚ)
    (st : PeerScoreState) : PeerScoreState :=
  match lookupA st.peerStats id with
  | none => st
  | some ps =>
      match lookupA params.topics topic with
      | none => st
      | some _ =>
          let ts := (lookupA ps.topics topic).getD initialTopicStats
          let ts' := { ts with inMesh := true, graftTime := now, meshTime := 0,
                               meshMessageDeliveriesActive := false }
          let ps' := { ps with topics := insertA ps.topics topic ts' }
          { st with peerStats := insertA st.peerStats id ps' }

/-- tracer.ts `prune`: sticky mesh-failure penalty when the gate is
active and the rate below threshold, then leave the mesh; no-op for an
unknown peer or an unscored topic. -/
def prune (params : PeerScoreParams) (id topic : String)
    (st : PeerScoreState) : PeerScoreState :=
  match lookupA st.peerStats id with
  | none => st
  | some ps =>
      match lookupA params.topics topic with
      | none => st
      | some tp =>
          let ts := (lookupA ps.topics topic).getD initialTopicStats
          let ts1 :=
            if ts.meshMessageDeliveriesActive ∧
                ts.meshMessageDeliveries < tp.meshMessageDeliveriesThreshold then
              let deficit := tp.meshMessageDeliveriesThreshold - ts.meshMessageDeliveries
              { ts with meshFailurePenalty := ts.meshFailurePenalty + deficit * deficit }
            else ts
          let ps' := { ps with topics := insertA ps.topics topic
                                 { ts1 with inMesh := false } }
          { st with peerStats := insertA st.peerStats id ps' }

/-- tracer.ts `validateMessage`: just ensure a delivery record exists. -/
def validateMessage (msg : Message) (now : ℚ) (st : PeerScoreState) :
    PeerScoreState :=
  { st with deliveryRecords := (ensureRecord now msg.msgId st.deliveryRecords).2 }

/-- tracer.ts `deliverMessage`: mark the first delivery for
`receivedFrom`, then — only if the record is still `unknown` — mark it
valid and credit a duplicate delivery to every other peer that already
forwarded the message (with `validatedTime = 0`, i.e. inside the
window). -/
def deliverMessage (params : PeerScoreParams) (msg : Message) (now : ℚ)
    (st : PeerScoreState) : PeerScoreState :=
  let id := msg.receivedFrom
  let peerStats1 := _markFirstMessageDelivery params id msg st.peerStats
  let (drec, dr1) := ensureRecord now msg.msgId st.deliveryRecords
  let st2 := { st with peerStats := peerStats1, deliveryRecords := dr1 }
  if drec.status ≠ DeliveryRecordStatus.unknown then st2
  else
    let drec' := { drec with status := DeliveryRecordStatus.valid, validated := now }
    let peerStats2 :=
      drec.peers.foldl
        (fun m p =>
          if p ≠ id then _markDuplicateMessageDelivery params p msg 0 now m else m)
        peerStats1
    { st2 with
      deliveryRecords := { dr1 with records := insertA dr1.records msg.msgId drec' },
      peerStats := peerStats2 }

/-- tracer.ts `rejectMessage`: signature failures only penalize the
sender (no record mutation); otherwise, if the record is still
`unknown`, transition it to `ignored` (validator ignore) or to
`invalid` with penalties for the sender and every recorded forwarder. -/
def rejectMessage (params : PeerScoreParams) (msg : Message) (reason : String)
    (now : ℚ) (st : PeerScoreState) : PeerScoreState :=
  let id := msg.receivedFrom
  if reason = ERR_MISSING_SIGNATURE ∨ reason = ERR_INVALID_SIGNATURE then
    { st with peerStats := _markInvalidMessageDelivery params id msg st.peerStats }
  else
    let (drec, dr1) := ensureRecord now msg.msgId st.deliveryRecords
    let st2 := { st with deliveryRecords := dr1 }
    if drec.status ≠ DeliveryRecordStatus.unknown then st2
    else if reason = ERR_TOPIC_VALIDATOR_IGNORE then
      let drecIgnored := { drec with status := DeliveryRecordStatus.ignored }
      let dr2 := { dr1 with records := insertA dr1.records msg.msgId drecIgnored }
      { st2 with deliveryRecords := dr2 }
    else
      let peerStats1 := _markInvalidMessageDelivery params id msg st2.peerStats
      let peerStats2 :=
        drec.peers.foldl (fun m p => _markInvalidMessageDelivery params p msg m)
          peerStats1
      let drecInvalid := { drec with status := DeliveryRecordStatus.invalid }
      let dr2 := { dr1 with records := insertA dr1.records msg.msgId drecInvalid }
      { st2 with deliveryRecords := dr2, peerStats := peerStats2 }

/-- tracer.ts `duplicateMessage`: dispatch on the record status; a peer
already in the record's peer set is ignored. -/
def duplicateMessage (params : PeerScoreParams) (msg : Message) (now : ℚ)
    (st : PeerScoreState) : PeerScoreState :=
  let id := msg.receivedFrom
  let (drec, dr1) := ensureRecord now msg.msgId st.deliveryRecords
  let st2 := { st with deliveryRecords := dr1 }
  if id ∈ drec.peers then st2
  else
    match drec.status with
    | DeliveryRecordStatus.unknown =>
        let drec' := { drec with peers := drec.peers ++ [id] }
        let dr2 := { dr1 with records := insertA dr1.records msg.msgId drec' }
        { st2 with deliveryRecords := dr2 }
    | DeliveryRecordStatus.valid =>
        let drec' := { drec with peers := drec.peers ++ [id] }
        let dr2 := { dr1 with records := insertA dr1.records msg.msgId drec' }
        { st2 with
          deliveryRecords := dr2,
          peerStats :=
            _markDuplicateMessageDelivery params id msg drec.validated now
              st2.peerStats }
    | DeliveryRecordStatus.invalid =>
        { st2 with peerStats :=
            _markInvalidMessageDelivery params id msg st2.peerStats }
    | DeliveryRecordStatus.ignored => st2

/-- One decay step of a counter: multiply by the decay factor and clamp
to 0 below `decayToZero`. -/
def decayCounter (decay decayToZero c : ℚ) : ℚ :=
  if c * decay < decayToZero then 0 else c * decay

/-- The per-topic part of tracer.ts `_refreshScores` for a connected
peer: decay the four counters (skipping topics that are not scored,
which is unreachable) and refresh `meshTime` / the activation gate. -/
def decayTopic (params : PeerScoreParams) (now : ℚ) (topic : String)
    (ts : TopicStats) : TopicStats :=
  match lookupA params.topics topic with
  | none => ts
  | some tp =>
      let z := params.decayToZero
      let ts1 :=
        { ts with
          firstMessageDeliveries :=
            decayCounter tp.firstMessageDeliveriesDecay z ts.firstMessageDeliveries,
          meshMessageDeliveries :=
            decayCounter tp.meshMessageDeliveriesDecay z ts.meshMessageDeliveries,
          meshFailurePenalty :=
            decayCounter tp.meshFailurePenaltyDecay z ts.meshFailurePenalty,
          invalidMessageDeliveries :=
            decayCounter tp.invalidMessageDeliveriesDecay z ts.invalidMessageDeliveries }
      if ts1.inMesh then
        let meshTime := now - ts1.graftTime
        { ts1 with meshTime := meshTime,
                   meshMessageDeliveriesActive :=
                     if meshTime > tp.meshMessageDeliveriesActivation then true
                     else ts1.meshMessageDeliveriesActive }
      else ts1

/-- The whole-peer part of tracer.ts `_refreshScores` for a connected
peer: decay every topic and the behaviour penalty. -/
def decayPeer (params : PeerScoreParams) (now : ℚ) (ps : PeerStats) :
    PeerStats :=
  { ps with
    topics := ps.topics.map (fun e => (e.1, decayTopic params now e.1 e.2)),
    behaviourPenalty :=
      decayCounter params.behaviourPenaltyDecay params.decayToZero
        ps.behaviourPenalty }

/-- tracer.ts `_refreshScores`. The source iterates the peer map once,
deleting disconnected peers whose retention expired (removing their IPs
from the index) and decaying the others; stated as a filterMap over the
entries plus the fold of the IP removals of the dropped peers, which is
the same per-entry action in the same order. -/
def _refreshScores (params : PeerScoreParams) (now : ℚ)
    (st : PeerScoreState) : PeerScoreState :=
  let kept :=
    st.peerStats.filterMap (fun e =>
      if e.2.connected then some (e.1, decayPeer params now e.2)
      else if e.2.expire < now then none
      else some e)
  let dropped :=
    st.peerStats.filter (fun e => !e.2.connected && decide (e.2.expire < now))
  let peerIPs' := dropped.foldl (fun m e => _removeIPs e.1 e.2.ips m) st.peerIPs
  { st with peerStats := kept, peerIPs := peerIPs' }

/-- tracer.ts `_updateIPs`: reconcile every peer's IPs against the
connection manager's current answer (passed as `getIPs`). -/
def _updateIPs (getIPs : String → List String) (st : PeerScoreState) :
    PeerScoreState :=
  { st with
    peerIPs :=
      st.peerStats.foldl (fun m e => _setIPs e.1 (getIPs e.1) e.2.ips m)
        st.peerIPs,
    peerStats :=
      st.peerStats.map (fun e => (e.1, { e.2 with ips := getIPs e.1 })) }

/-- tracer.ts `start`: install the background interval unless already
running. -/
def start (st : PeerScoreState) : PeerScoreState :=
  if st.running then st else { st with running := true }

/-- tracer.ts `stop`: if no background interval is installed, log and
return; otherwise cancel it and clear the three maps. -/
def stop (st : PeerScoreState) : PeerScoreState :=
  if st.running then
    { peerStats := [], peerIPs := [], deliveryRecords := ⟨[], []⟩,
      running := false }
  else st

end Gossipsub

/-! ## The IWANT promise tracker (tracer.ts IWantTracer) -/

namespace IWantTracer

/-- The promise map of the IWantTracer:
message id → (peer → expiration time). -/
structure TracerState where
  promises : List (String × List (String × ℚ))
deriving DecidableEq

/-- tracer.ts `IWantTracer.deliverMessage`: delete every promise entry
for the message's id. -/
def deliverMessage (msgId : String) (st : TracerState) : TracerState :=
  { promises := Gossipsub.eraseA st.promises msgId }

/-- tracer.ts `IWantTracer.rejectMessage`: return untouched for the two
signature reasons, else delete every promise entry for the id. -/
def rejectMessage (msgId : String) (reason : String) (st : TracerState) :
    TracerState :=
  if reason = Gossipsub.ERR_INVALID_SIGNATURE ∨
      reason = Gossipsub.ERR_MISSING_SIGNATURE then st
  else { promises := Gossipsub.eraseA st.promises msgId }

/-- tracer.ts `IWantTracer.clear`. -/
def clear (_st : TracerState) : TracerState := { promises := [] }

end IWantTracer

/-! ## Concrete fixtures used by witnesses and counterexamples -/

namespace Gossipsub

/-- A single scored topic `"t"` with the default per-topic parameters. -/
def tpW : TopicScoreParams := {}

/-- Parameters scoring exactly the topic `"t"`. -/
def paramsW : PeerScoreParams := { topics := [("t", tpW)] }

/-- A message on topic `"t"` with id `"m"`, received from peer `"A"`. -/
def msgW : Message := { receivedFrom := "A", topicIDs := ["t"], msgId := "m" }

example :
    lookupA ((addPeer "A" [] emptyState).peerStats) "A" =
      some (createPeerStats true) := by
  norm_num +decide [addPeer, emptyState, createPeerStats, _setIPs, insertA,
    lookupA]

example : score paramsW (addPeer "A" [] emptyState) "A" = 0 := by
  norm_num +decide [score, computeScore, addPeer, emptyState, createPeerStats,
    _setIPs, insertA, lookupA, paramsW, tpW]

example :
    ((lookupA (deliverMessage paramsW msgW 5 (addPeer "A" [] emptyState)).peerStats
        "A").bind (fun ps => lookupA ps.topics "t")).map
      TopicStats.firstMessageDeliveries = some 1 := by
  norm_num +decide [deliverMessage, _markFirstMessageDelivery, markFirstTopic,
    applyScoredTopics, clampCap, ensureRecord, addPeer, emptyState,
    createPeerStats, _setIPs, insertA, lookupA, paramsW, tpW, msgW,
    timeCacheDuration, initialTopicStats]

/-! ## Claim C8 — promise-tracker deletion rules -/

/-- C8: in the promise tracker, `deliverMessage` removes all outstanding
promise entries for the message id; `rejectMessage` with a reason other
than `ERR_MISSING_SIGNATURE` / `ERR_INVALID_SIGNATURE` removes them too;
and `rejectMessage` with one of those two signature reasons leaves the
promise map completely unchanged. -/
theorem claim8_promise_rules (st : IWantTracer.TracerState)
    (msgId reason : String) (hnd : NodupKeys st.promises) :
    lookupA (IWantTracer.deliverMessage msgId st).promises msgId = none ∧
    (reason ≠ ERR_MISSING_SIGNATURE → reason ≠ ERR_INVALID_SIGNATURE →
      lookupA (IWantTracer.rejectMessage msgId reason st).promises msgId = none) ∧
    (reason = ERR_MISSING_SIGNATURE ∨ reason = ERR_INVALID_SIGNATURE →
      IWantTracer.rejectMessage msgId reason st = st) := by
  refine ⟨lookupA_eraseA_self _ _ hnd, fun h1 h2 => ?_, fun h => ?_⟩
  · simp only [IWantTracer.rejectMessage]
    rw [if_neg (by intro hc; rcases hc with hc | hc; exact h2 hc; exact h1 hc)]
    exact lookupA_eraseA_self _ _ hnd
  · simp only [IWantTracer.rejectMessage]
    rw [if_pos (by rcases h with h | h; exact Or.inr h; exact Or.inl h)]

/-- A concrete promise map with one entry for message `"m"`. -/
def tracerW : IWantTracer.TracerState :=
  { promises := [("m", [("p", 5)])] }

/-- Witness for C8 at a concrete tracker state. -/
theorem claim8_promise_rules_witness :
    lookupA (IWantTracer.deliverMessage "m" tracerW).promises "m" = none ∧
    lookupA (IWantTracer.rejectMessage "m" "ERR_TOPIC_VALIDATOR_REJECT"
      tracerW).promises "m" = none ∧
    IWantTracer.rejectMessage "m" ERR_MISSING_SIGNATURE tracerW = tracerW := by
  have h := claim8_promise_rules tracerW "m" "ERR_TOPIC_VALIDATOR_REJECT"
    (by simp [NodupKeys, tracerW])
  have h' := claim8_promise_rules tracerW "m" ERR_MISSING_SIGNATURE
    (by simp [NodupKeys, tracerW])
  exact ⟨h.1, h.2.1 (by decide) (by decide), h'.2.2 (Or.inl rfl)⟩

/-! ## Lemmas about the mark-loop `applyScoredTopics` -/

theorem applyScoredTopics_fields (params : PeerScoreParams)
    (f : TopicScoreParams → TopicStats → TopicStats) (l : List String) :
    ∀ ps : PeerStats,
      (applyScoredTopics params f l ps).connected = ps.connected ∧
      (applyScoredTopics params f l ps).expire = ps.expire ∧
      (applyScoredTopics params f l ps).behaviourPenalty = ps.behaviourPenalty ∧
      (applyScoredTopics params f l ps).ips = ps.ips := by
  induction l with
  | nil => intro ps; simp [applyScoredTopics]
  | cons t rest ih =>
      intro ps
      simp only [applyScoredTopics, List.foldl_cons]
      cases htp : lookupA params.topics t with
      | none => simpa [applyScoredTopics, htp] using ih ps
      | some tp => simpa [applyScoredTopics, htp] using ih _

theorem lookupA_applyScoredTopics_not_mem (params : PeerScoreParams)
    (f : TopicScoreParams → TopicStats → TopicStats) (l : List String)
    (topic : String) (h : topic ∉ l) :
    ∀ ps : PeerStats,
      lookupA (applyScoredTopics params f l ps).topics topic =
        lookupA ps.topics topic := by
  induction l with
  | nil => intro ps; simp [applyScoredTopics]
  | cons t rest ih =>
      intro ps
      simp only [List.mem_cons, not_or] at h
      simp only [applyScoredTopics, List.foldl_cons]
      cases htp : lookupA params.topics t with
      | none => simpa [applyScoredTopics, htp] using ih h.2 ps
      | some tp =>
          have := ih h.2 { ps with topics := insertA ps.topics t (f tp ((lookupA ps.topics t).getD initialTopicStats)) }
          simp only [applyScoredTopics, htp] at this ⊢
          rw [this, lookupA_insertA]
          simp [h.1]

theorem lookupA_applyScoredTopics_mem (params : PeerScoreParams)
    (f : TopicScoreParams → TopicStats → TopicStats) (l : List String)
    (topic : String) (tp : TopicScoreParams) (hmem : topic ∈ l)
    (hnd : l.Nodup) (htp : lookupA params.topics topic = some tp) :
    ∀ ps : PeerStats,
      lookupA (applyScoredTopics params f l ps).topics topic =
        some (f tp ((lookupA ps.topics topic).getD initialTopicStats)) := by
  induction l with
  | nil => simp at hmem
  | cons t rest ih =>
      intro ps
      simp only [List.nodup_cons] at hnd
      rcases List.mem_cons.mp hmem with heq | hmem'
      · subst heq
        simp only [applyScoredTopics, List.foldl_cons, htp]
        have hrest := lookupA_applyScoredTopics_not_mem params f rest topic
          hnd.1 { ps with topics := insertA ps.topics topic (f tp ((lookupA ps.topics topic).getD initialTopicStats)) }
        simp only [applyScoredTopics] at hrest
        rw [hrest, lookupA_insertA]
        simp
      · have hne : topic ≠ t := fun hh => by
          subst hh; exact hnd.1 hmem'
        simp only [applyScoredTopics, List.foldl_cons]
        cases htp' : lookupA params.topics t with
        | none => simpa [applyScoredTopics, htp'] using ih hmem' hnd.2 ps
        | some tp' =>
            have := ih hmem' hnd.2 { ps with topics := insertA ps.topics t (f tp' ((lookupA ps.topics t).getD initialTopicStats)) }
            simp only [applyScoredTopics, htp'] at this ⊢
            rw [this, lookupA_insertA]
            simp [hne]

/-! ## Claim C1 — second terminal DeliverMessage -/

/-- A record for message `"m"` already in terminal status `valid`. -/
def recValid : DeliveryRecord :=
  { status := DeliveryRecordStatus.valid, firstSeen := 0, validated := 1,
    peers := [], expire := 1000 }

/-- Peer `"A"` is known (no topic stats yet) and message `"m"` already
has a terminal (`valid`) delivery record. -/
def st1c : PeerScoreState :=
  { peerStats := [("A", createPeerStats true)], peerIPs := [],
    deliveryRecords := ⟨[("m", recValid)], ["m"]⟩, running := false }

/-- C1 counterexample: a `DeliverMessage` for a message whose record is
already terminal still increments the sender's
`firstMessageDeliveries` (the source calls `_markFirstMessageDelivery`
before the defensive status check), refuting "it changes … no per-peer
counter". Here peer `"A"` had no `"t"` topic stats and ends with
`firstMessageDeliveries = 1`. -/
theorem claim1_counterexample :
    ((lookupA (deliverMessage paramsW msgW 5 st1c).peerStats "A").bind
        (fun ps => lookupA ps.topics "t")).map
      TopicStats.firstMessageDeliveries = some 1 ∧
    ((lookupA st1c.peerStats "A").bind (fun ps => lookupA ps.topics "t")) =
      none := by
  norm_num +decide [deliverMessage, _markFirstMessageDelivery, markFirstTopic,
    applyScoredTopics, clampCap, ensureRecord, insertA, lookupA, paramsW, tpW,
    msgW, st1c, recValid, createPeerStats, initialTopicStats]

/-- C1 (amended): for a message whose delivery record already has a
terminal status, `DeliverMessage` changes no delivery record and
credits no duplicate deliveries, but it does still mark a first-message
delivery for `msg.receivedFrom` (incrementing that peer's
`firstMessageDeliveries` and, on in-mesh topics, its
`meshMessageDeliveries`); the rest of the state is untouched. -/
theorem claim1_terminal_deliver (params : PeerScoreParams) (msg : Message)
    (now : ℚ) (st : PeerScoreState) (r : DeliveryRecord)
    (hr : lookupA st.deliveryRecords.records msg.msgId = some r)
    (hs : r.status ≠ DeliveryRecordStatus.unknown) :
    deliverMessage params msg now st =
      { st with peerStats :=
          _markFirstMessageDelivery params msg.receivedFrom msg st.peerStats } := by
  simp [deliverMessage, ensureRecord, hr, hs]

/-- Witness for C1 at the concrete terminal-record state. -/
theorem claim1_terminal_deliver_witness :
    lookupA st1c.deliveryRecords.records "m" = some recValid ∧
    recValid.status ≠ DeliveryRecordStatus.unknown ∧
    deliverMessage paramsW msgW 5 st1c =
      { st1c with peerStats :=
          _markFirstMessageDelivery paramsW "A" msgW st1c.peerStats } := by
  refine ⟨by norm_num +decide [lookupA, st1c], by decide, ?_⟩
  exact claim1_terminal_deliver paramsW msgW 5 st1c recValid
    (by norm_num +decide [lookupA, st1c]) (by decide)

/-! ## Decay iteration and the refresh lookup lemma (for C5, C6) -/

/-- `n` applications of one decay step to an initial counter value. -/
def iterDecay (d z init : ℚ) : ℕ → ℚ
  | 0 => init
  | n + 1 => decayCounter d z (iterDecay d z init n)

/-- The closed form of the decay law: after `n` runs the counter is
`init × d^n`, except that it is exactly 0 as soon as the decayed value
falls below `z` (monotonicity makes "the first such run" and "the
current value is below `z`" agree). -/
def decayedValue (d z init : ℚ) : ℕ → ℚ
  | 0 => init
  | n + 1 => if init * d ^ (n + 1) < z then 0 else init * d ^ (n + 1)

theorem decayCounter_decayedValue (d z init : ℚ) (n : ℕ) (hi : 0 ≤ init)
    (hd0 : 0 ≤ d) (hd1 : d ≤ 1) (hz : 0 < z) :
    decayCounter d z (decayedValue d z init n) = decayedValue d z init (n + 1) := by
  have hpow : 0 ≤ init * d ^ n := mul_nonneg hi (pow_nonneg hd0 n)
  have hstep : init * d ^ n * d = init * d ^ (n + 1) := by ring
  cases n with
  | zero =>
      simp only [decayedValue, decayCounter, zero_add, pow_one]
  | succ m =>
      by_cases h : init * d ^ (m + 1) < z
      · have h2 : init * d ^ (m + 1 + 1) < z := by
          calc init * d ^ (m + 1 + 1) = (init * d ^ (m + 1)) * d := by ring
          _ ≤ (init * d ^ (m + 1)) * 1 := by
              exact mul_le_mul_of_nonneg_left hd1 hpow
          _ = init * d ^ (m + 1) := by ring
          _ < z := h
        simp only [decayedValue, if_pos h, if_pos h2, decayCounter]
        rw [if_pos (by simpa using hz)]
      · simp only [decayedValue, if_neg h, decayCounter]
        have : init * d ^ (m + 1) * d = init * d ^ (m + 1 + 1) := by ring
        rw [this]

theorem iterDecay_succ_left (d z c : ℚ) (n : ℕ) :
    iterDecay d z (decayCounter d z c) n = iterDecay d z c (n + 1) := by
  induction n with
  | zero => rfl
  | succ m ih =>
      show decayCounter d z (iterDecay d z (decayCounter d z c) m) = _
      rw [ih]
      rfl

theorem iterDecay_eq_decayedValue (d z init : ℚ) (hi : 0 ≤ init)
    (hd0 : 0 ≤ d) (hd1 : d ≤ 1) (hz : 0 < z) (n : ℕ) :
    iterDecay d z init n = decayedValue d z init n := by
  induction n with
  | zero => rfl
  | succ m ih =>
      show decayCounter d z (iterDecay d z init m) = _
      rw [ih]
      exact decayCounter_decayedValue d z init m hi hd0 hd1 hz

/-- The per-entry action of `_refreshScores` on the peer-stats map. -/
def refreshEntry (params : PeerScoreParams) (now : ℚ)
    (e : String × PeerStats) : Option (String × PeerStats) :=
  if e.2.connected then some (e.1, decayPeer params now e.2)
  else if e.2.expire < now then none
  else some e

theorem refreshEntry_key (params : PeerScoreParams) (now : ℚ)
    (e e' : String × PeerStats) (h : refreshEntry params now e = some e') :
    e'.1 = e.1 := by
  unfold refreshEntry at h
  by_cases h1 : e.2.connected
  · simp only [h1, if_true] at h
    cases h
    rfl
  · simp only [h1, Bool.false_eq_true, if_false] at h
    by_cases h2 : e.2.expire < now
    · simp [h2] at h
    · simp only [h2, if_false] at h
      cases h
      rfl

theorem refreshScores_peerStats (params : PeerScoreParams) (now : ℚ)
    (st : PeerScoreState) :
    (_refreshScores params now st).peerStats =
      st.peerStats.filterMap (refreshEntry params now) := rfl

theorem keys_filterMap_refresh_sublist (params : PeerScoreParams) (now : ℚ) :
    ∀ l : List (String × PeerStats),
      ((l.filterMap (refreshEntry params now)).map Prod.fst).Sublist
        (l.map Prod.fst) := by
  intro l
  induction l with
  | nil => simp
  | cons e rest ih =>
      cases hg : refreshEntry params now e with
      | none =>
          simp only [List.filterMap_cons, hg, List.map_cons]
          exact ih.cons _
      | some e' =>
          simp only [List.filterMap_cons, hg, List.map_cons,
            refreshEntry_key params now e e' hg]
          exact ih.cons₂ _

theorem nodupKeys_refreshScores (params : PeerScoreParams) (now : ℚ)
    (st : PeerScoreState) (h : NodupKeys st.peerStats) :
    NodupKeys (_refreshScores params now st).peerStats := by
  rw [refreshScores_peerStats]
  exact (keys_filterMap_refresh_sublist params now st.peerStats).nodup h

theorem lookupA_refreshScores (params : PeerScoreParams) (now : ℚ) :
    ∀ (l : List (String × PeerStats)) (p : String),
      ((l.map Prod.fst).Nodup) →
      lookupA (l.filterMap (refreshEntry params now)) p =
        match lookupA l p with
        | none => none
        | some ps =>
            if ps.connected then some (decayPeer params now ps)
            else if ps.expire < now then none else some ps := by
  intro l
  induction l with
  | nil => intro p _; rfl
  | cons e rest ih =>
      intro p hnd
      simp only [List.map_cons, List.nodup_cons] at hnd
      by_cases hk : e.1 = p
      · subst hk
        have hrest : lookupA (rest.filterMap (refreshEntry params now)) e.1 = none := by
          apply lookupA_eq_none_of_not_mem_keys
          intro hc
          exact hnd.1 ((keys_filterMap_refresh_sublist params now rest).subset hc)
        by_cases h1 : e.2.connected
        · simp [List.filterMap_cons, refreshEntry, h1, lookupA]
        · by_cases h2 : e.2.expire < now
          · simp only [List.filterMap_cons, refreshEntry, h1,
              Bool.false_eq_true, if_false, h2, if_true]
            rw [hrest]
            simp [lookupA, h1, h2]
          · simp [List.filterMap_cons, refreshEntry, h1, h2, lookupA]
      · have htail := ih p hnd.2
        cases hg : refreshEntry params now e with
        | none =>
            simp only [List.filterMap_cons, hg, lookupA, hk, if_false]
            rw [htail]
        | some e' =>
            have : e'.1 ≠ p := by
              rw [refreshEntry_key params now e e' hg]
              exact hk
            simp only [List.filterMap_cons, hg, lookupA, this, hk, if_false]
            rw [htail]

theorem decayPeer_connected (params : PeerScoreParams) (now : ℚ)
    (ps : PeerStats) : (decayPeer params now ps).connected = ps.connected := rfl

theorem decayPeer_behaviourPenalty (params : PeerScoreParams) (now : ℚ)
    (ps : PeerStats) :
    (decayPeer params now ps).behaviourPenalty =
      decayCounter params.behaviourPenaltyDecay params.decayToZero
        ps.behaviourPenalty := rfl

theorem decayPeer_topics (params : PeerScoreParams) (now : ℚ) (ps : PeerStats)
    (topic : String) :
    lookupA (decayPeer params now ps).topics topic =
      (lookupA ps.topics topic).map (decayTopic params now topic) := by
  unfold decayPeer
  exact lookupA_mapValues ps.topics (decayTopic params now) topic

theorem decayTopic_counters (params : PeerScoreParams) (now : ℚ)
    (topic : String) (ts : TopicStats) (tp : TopicScoreParams)
    (htp : lookupA params.topics topic = some tp) :
    (decayTopic params now topic ts).firstMessageDeliveries =
      decayCounter tp.firstMessageDeliveriesDecay params.decayToZero
        ts.firstMessageDeliveries ∧
    (decayTopic params now topic ts).meshMessageDeliveries =
      decayCounter tp.meshMessageDeliveriesDecay params.decayToZero
        ts.meshMessageDeliveries ∧
    (decayTopic params now topic ts).meshFailurePenalty =
      decayCounter tp.meshFailurePenaltyDecay params.decayToZero
        ts.meshFailurePenalty ∧
    (decayTopic params now topic ts).invalidMessageDeliveries =
      decayCounter tp.invalidMessageDeliveriesDecay params.decayToZero
        ts.invalidMessageDeliveries := by
  simp only [decayTopic, htp]
  split <;> simp

/-! ## Well-formedness of the IP index and removal lemmas (C6, C4) -/

/-- Well-formedness of the `peerIPs` index: duplicate-free keys and
duplicate-free buckets (true of a JS `Map` of `Set`s). -/
def IPMapOK (m : List (String × List String)) : Prop :=
  NodupKeys m ∧ ∀ ip b, lookupA m ip = some b → b.Nodup

theorem removeIPStep_ok (id : String) (m : List (String × List String))
    (ip : String) (h : IPMapOK m) : IPMapOK (removeIPStep id m ip) := by
  obtain ⟨hk, hb⟩ := h
  unfold removeIPStep
  cases hl : lookupA m ip with
  | none => exact ⟨hk, hb⟩
  | some b =>
      by_cases he : b.erase id = []
      · simp only [he, if_true]
        refine ⟨nodupKeys_eraseA m ip hk, fun ip' b' h' => ?_⟩
        by_cases hip : ip' = ip
        · subst hip
          rw [lookupA_eraseA_self m ip' hk] at h'
          cases h'
        · rw [lookupA_eraseA_ne m ip ip' hip] at h'
          exact hb ip' b' h'
      · simp only [he, if_false]
        refine ⟨nodupKeys_insertA m ip _ hk, fun ip' b' h' => ?_⟩
        rw [lookupA_insertA] at h'
        by_cases hip : ip' = ip
        · rw [if_pos hip] at h'
          cases h'
          exact (hb ip b hl).erase id
        · rw [if_neg hip] at h'
          exact hb ip' b' h'

theorem removeIPStep_not_mem (p q ip ip' : String)
    (m : List (String × List String)) (hk : NodupKeys m)
    (h : ∀ b, lookupA m ip = some b → p ∉ b) :
    ∀ b, lookupA (removeIPStep q m ip') ip = some b → p ∉ b := by
  intro b hb
  unfold removeIPStep at hb
  cases hl : lookupA m ip' with
  | none =>
      rw [hl] at hb
      exact h b hb
  | some b0 =>
      rw [hl] at hb
      by_cases he : b0.erase q = []
      · simp only [he, if_true] at hb
        by_cases hip : ip = ip'
        · subst hip
          rw [lookupA_eraseA_self m ip hk] at hb
          cases hb
        · rw [lookupA_eraseA_ne m ip' ip hip] at hb
          exact h b hb
      · simp only [he, if_false] at hb
        rw [lookupA_insertA] at hb
        by_cases hip : ip = ip'
        · rw [if_pos hip] at hb
          cases hb
          intro hmem
          subst hip
          exact h b0 hl (List.mem_of_mem_erase hmem)
        · rw [if_neg hip] at hb
          exact h b hb

theorem removeIPStep_self (id ip : String) (m : List (String × List String))
    (hok : IPMapOK m) :
    ∀ b, lookupA (removeIPStep id m ip) ip = some b → id ∉ b := by
  intro b hb
  unfold removeIPStep at hb
  cases hl : lookupA m ip with
  | none =>
      rw [hl] at hb
      rw [hl] at hb
      cases hb
  | some b0 =>
      rw [hl] at hb
      by_cases he : b0.erase id = []
      · simp only [he, if_true] at hb
        rw [lookupA_eraseA_self m ip hok.1] at hb
        cases hb
      · simp only [he, if_false] at hb
        rw [lookupA_insertA, if_pos rfl] at hb
        cases hb
        exact (hok.2 ip b0 hl).not_mem_erase

theorem removeIPs_ok (id : String) (ips : List String) :
    ∀ m, IPMapOK m → IPMapOK (_removeIPs id ips m) := by
  induction ips with
  | nil => intro m h; exact h
  | cons ip rest ih =>
      intro m h
      exact ih (removeIPStep id m ip) (removeIPStep_ok id m ip h)

theorem removeIPs_not_mem_preserve (p id ip : String) (ips : List String) :
    ∀ m, IPMapOK m → (∀ b, lookupA m ip = some b → p ∉ b) →
      ∀ b, lookupA (_removeIPs id ips m) ip = some b → p ∉ b := by
  induction ips with
  | nil => intro m _ h; exact h
  | cons ip0 rest ih =>
      intro m hok h
      exact ih (removeIPStep id m ip0) (removeIPStep_ok id m ip0 hok)
        (removeIPStep_not_mem p id ip ip0 m hok.1 h)

theorem removeIPs_self (id : String) (ips : List String) :
    ∀ m, IPMapOK m → ∀ ip ∈ ips,
      ∀ b, lookupA (_removeIPs id ips m) ip = some b → id ∉ b := by
  induction ips with
  | nil => intro m _ ip hip; simp at hip
  | cons ip0 rest ih =>
      intro m hok ip hip
      have hok1 := removeIPStep_ok id m ip0 hok
      rcases List.mem_cons.mp hip with heq | hmem
      · subst heq
        exact removeIPs_not_mem_preserve id id ip rest
          (removeIPStep id m ip) hok1 (removeIPStep_self id ip m hok)
      · exact ih (removeIPStep id m ip0) hok1 ip hmem

theorem refreshScores_peerIPs (params : PeerScoreParams) (now : ℚ)
    (st : PeerScoreState) :
    (_refreshScores params now st).peerIPs =
      (st.peerStats.filter
          (fun e => !e.2.connected && decide (e.2.expire < now))).foldl
        (fun m e => _removeIPs e.1 e.2.ips m) st.peerIPs := rfl

theorem fold_removeIPs_preserve (p ip : String)
    (l : List (String × PeerStats)) :
    ∀ m, IPMapOK m → (∀ b, lookupA m ip = some b → p ∉ b) →
      ∀ b, lookupA (l.foldl (fun m e => _removeIPs e.1 e.2.ips m) m) ip =
        some b → p ∉ b := by
  induction l with
  | nil => intro m _ h; exact h
  | cons e rest ih =>
      intro m hok h
      exact ih (_removeIPs e.1 e.2.ips m) (removeIPs_ok e.1 e.2.ips m hok)
        (removeIPs_not_mem_preserve p e.1 ip e.2.ips m hok h)

theorem fold_removeIPs_dropped (p : String) (ps2 : PeerStats)
    (l : List (String × PeerStats)) :
    ∀ m, IPMapOK m → (p, ps2) ∈ l → ∀ ip ∈ ps2.ips,
      ∀ b, lookupA (l.foldl (fun m e => _removeIPs e.1 e.2.ips m) m) ip =
        some b → p ∉ b := by
  induction l with
  | nil => intro m _ hmem; simp at hmem
  | cons e rest ih =>
      intro m hok hmem ip hip
      have hok1 := removeIPs_ok e.1 e.2.ips m hok
      rcases List.mem_cons.mp hmem with heq | hmem'
      · subst heq
        exact fold_removeIPs_preserve p ip rest (_removeIPs p ps2.ips m) hok1
          (removeIPs_self p ps2.ips m hok ip hip)
      · exact ih (_removeIPs e.1 e.2.ips m) hok1 hmem' ip hip

/-! ## Claim C6 — retention of a non-positively scored removed peer -/

/-- C6: removing a peer whose score is ≤ 0 keeps its stats,
disconnected, with `expire = now + retainScore` (IPs and
behaviour-penalty retained; `removePeer` zeroes `firstMessageDeliveries`
and applies mesh-failure penalties but touches nothing else); every
`_refreshScores` run at a time `t ≤ expire` leaves the whole retained
entry (hence all its counters and `behaviourPenalty`) completely
unchanged — disconnected peers are not decayed; and a `_refreshScores`
run at `t > expire` deletes the entry and removes the peer from the
`peerIPs` bucket of each of its IPs. -/
theorem claim6_retention (params : PeerScoreParams) (st : PeerScoreState)
    (p : String) (ps : PeerStats) (now : ℚ)
    (hps : lookupA st.peerStats p = some ps)
    (hscore : score params st p ≤ 0) :
    (∃ ps1, lookupA (removePeer params p now st).peerStats p = some ps1 ∧
       ps1.connected = false ∧ ps1.expire = now + params.retainScore ∧
       ps1.ips = ps.ips ∧ ps1.behaviourPenalty = ps.behaviourPenalty) ∧
    (∀ (t : ℚ) (st2 : PeerScoreState) (ps2 : PeerStats),
       NodupKeys st2.peerStats → lookupA st2.peerStats p = some ps2 →
       ps2.connected = false → t ≤ ps2.expire →
       lookupA (_refreshScores params t st2).peerStats p = some ps2) ∧
    (∀ (t : ℚ) (st2 : PeerScoreState) (ps2 : PeerStats),
       NodupKeys st2.peerStats → IPMapOK st2.peerIPs →
       lookupA st2.peerStats p = some ps2 →
       ps2.connected = false → ps2.expire < t →
       lookupA (_refreshScores params t st2).peerStats p = none ∧
       ∀ ip ∈ ps2.ips, ∀ b,
         lookupA (_refreshScores params t st2).peerIPs ip = some b →
           p ∉ b) := by
  refine ⟨?_, ?_, ?_⟩
  · have hnotpos : ¬(0 < score params st p) := not_lt.mpr hscore
    refine ⟨{ ps with topics := ps.topics.map (retainTopic params), connected := false, expire := now + params.retainScore }, ?_, rfl, rfl, rfl, rfl⟩
    simp only [removePeer, hps, if_neg hnotpos]
    rw [lookupA_insertA, if_pos rfl]
  · intro t st2 ps2 hnd hps2 hconn hle
    have h := lookupA_refreshScores params t st2.peerStats p hnd
    rw [← refreshScores_peerStats, hps2] at h
    rw [h]
    simp [hconn, not_lt.mpr hle]
  · intro t st2 ps2 hnd hok hps2 hconn hlt
    constructor
    · have h := lookupA_refreshScores params t st2.peerStats p hnd
      rw [← refreshScores_peerStats, hps2] at h
      rw [h]
      simp [hconn, hlt]
    · intro ip hip b hb
      rw [refreshScores_peerIPs] at hb
      have hmem : (p, ps2) ∈ st2.peerStats.filter
          (fun e => !e.2.connected && decide (e.2.expire < t)) := by
        rw [List.mem_filter]
        exact ⟨mem_of_lookupA st2.peerStats p ps2 hps2, by simp [hconn, hlt]⟩
      exact fold_removeIPs_dropped p ps2 _ st2.peerIPs hok hmem ip hip b hb

/-- The disconnected retained state used by the C6 witness. -/
def st6d : PeerScoreState :=
  { peerStats := [("A", { connected := false, expire := 10, topics := [], behaviourPenalty := 2, ips := ["ip1"] })],
    peerIPs := [("ip1", ["A"])], deliveryRecords := ⟨[], []⟩,
    running := false }

/-- The connected state used by the C6 witness (score `"A"` = 0 ≤ 0). -/
def st6 : PeerScoreState :=
  { peerStats := [("A", { connected := true, expire := 0, topics := [], behaviourPenalty := 0, ips := ["ip1"] })],
    peerIPs := [("ip1", ["A"])], deliveryRecords := ⟨[], []⟩,
    running := false }

/-- Witness for C6 at concrete states. -/
theorem claim6_retention_witness :
    (∃ ps1, lookupA (removePeer paramsW "A" 4 st6).peerStats "A" = some ps1 ∧
       ps1.connected = false ∧ ps1.expire = 4 + paramsW.retainScore ∧
       ps1.ips = ["ip1"] ∧ ps1.behaviourPenalty = 0) ∧
    lookupA (_refreshScores paramsW 5 st6d).peerStats "A" =
      some { connected := false, expire := 10, topics := [], behaviourPenalty := 2, ips := ["ip1"] } ∧
    lookupA (_refreshScores paramsW 20 st6d).peerStats "A" = none ∧
    (∀ b, lookupA (_refreshScores paramsW 20 st6d).peerIPs "ip1" = some b →
      "A" ∉ b) := by
  have h := claim6_retention paramsW st6 "A"
    { connected := true, expire := 0, topics := [], behaviourPenalty := 0, ips := ["ip1"] }
    4 (by decide)
    (by norm_num +decide [score, computeScore, lookupA, st6, paramsW])
  have h3 := h.2.2 20 st6d
    { connected := false, expire := 10, topics := [], behaviourPenalty := 2, ips := ["ip1"] }
    (by simp [NodupKeys, st6d])
    (by refine ⟨by simp [NodupKeys, st6d], fun ip b hb => ?_⟩
        simp only [st6d, lookupA] at hb
        by_cases hip : "ip1" = ip
        · rw [if_pos hip] at hb
          cases hb
          simp
        · rw [if_neg hip] at hb
          cases hb)
    (by decide) (by decide) (by norm_num)
  refine ⟨?_, ?_, h3.1, fun b hb => h3.2 "ip1" (by decide) b hb⟩
  · obtain ⟨ps1, h1, h2', h3', h4', h5'⟩ := h.1
    exact ⟨ps1, h1, h2', h3', h4', h5'⟩
  · exact h.2.1 5 st6d
      { connected := false, expire := 10, topics := [], behaviourPenalty := 2, ips := ["ip1"] }
      (by simp [NodupKeys, st6d]) (by decide) (by decide) (by norm_num)

/-! ## Claim C5 — the decay law -/

/-- `n` consecutive `_refreshScores` runs at the given times. -/
def runRefreshes (params : PeerScoreParams) (times : List ℚ)
    (st : PeerScoreState) : PeerScoreState :=
  times.foldl (fun s t => _refreshScores params t s) st

theorem runRefreshes_iter (params : PeerScoreParams) :
    ∀ (times : List ℚ) (st : PeerScoreState) (p : String) (ps : PeerStats)
      (topic : String) (tp : TopicScoreParams) (ts : TopicStats),
      NodupKeys st.peerStats → lookupA st.peerStats p = some ps →
      ps.connected = true → lookupA ps.topics topic = some ts →
      lookupA params.topics topic = some tp →
      ∃ ps' ts',
        lookupA (runRefreshes params times st).peerStats p = some ps' ∧
        ps'.connected = true ∧ lookupA ps'.topics topic = some ts' ∧
        ts'.firstMessageDeliveries =
          iterDecay tp.firstMessageDeliveriesDecay params.decayToZero
            ts.firstMessageDeliveries times.length ∧
        ts'.meshMessageDeliveries =
          iterDecay tp.meshMessageDeliveriesDecay params.decayToZero
            ts.meshMessageDeliveries times.length ∧
        ts'.meshFailurePenalty =
          iterDecay tp.meshFailurePenaltyDecay params.decayToZero
            ts.meshFailurePenalty times.length ∧
        ts'.invalidMessageDeliveries =
          iterDecay tp.invalidMessageDeliveriesDecay params.decayToZero
            ts.invalidMessageDeliveries times.length ∧
        ps'.behaviourPenalty =
          iterDecay params.behaviourPenaltyDecay params.decayToZero
            ps.behaviourPenalty times.length := by
  intro times
  induction times with
  | nil =>
      intro st p ps topic tp ts _ hps hconn hts _
      exact ⟨ps, ts, hps, hconn, hts, rfl, rfl, rfl, rfl, rfl⟩
  | cons t rest ih =>
      intro st p ps topic tp ts hnd hps hconn hts htp
      have hlk := lookupA_refreshScores params t st.peerStats p hnd
      rw [← refreshScores_peerStats] at hlk
      rw [hps] at hlk
      simp only [hconn, if_true] at hlk
      have hnd1 := nodupKeys_refreshScores params t st hnd
      have hts1 : lookupA (decayPeer params t ps).topics topic =
          some (decayTopic params t topic ts) := by
        rw [decayPeer_topics, hts]
        rfl
      obtain ⟨ps', ts', h1, h2, h3, h4, h5, h6, h7, h8⟩ :=
        ih (_refreshScores params t st) p (decayPeer params t ps) topic tp
          (decayTopic params t topic ts) hnd1 hlk
          (by rw [decayPeer_connected]; exact hconn) hts1 htp
      obtain ⟨hc1, hc2, hc3, hc4⟩ := decayTopic_counters params t topic ts tp htp
      refine ⟨ps', ts', h1, h2, h3, ?_, ?_, ?_, ?_, ?_⟩
      · rw [h4, hc1, iterDecay_succ_left]
        simp
      · rw [h5, hc2, iterDecay_succ_left]
        simp
      · rw [h6, hc3, iterDecay_succ_left]
        simp
      · rw [h7, hc4, iterDecay_succ_left]
        simp
      · rw [h8, decayPeer_behaviourPenalty, iterDecay_succ_left]
        simp

/-- C5: for a connected peer and a scored topic, after `n` consecutive
`_refreshScores` runs with no intervening ingest, each decayed counter
(the four per-topic counters and `behaviourPenalty`) equals its initial
value times `decay^n`, except that it is exactly 0 from the first run
at which the decayed value falls below `decayToZero`
(`decayedValue` is that closed form). -/
theorem claim5_decay_law (params : PeerScoreParams) (times : List ℚ)
    (st : PeerScoreState) (p : String) (ps : PeerStats) (topic : String)
    (tp : TopicScoreParams) (ts : TopicStats)
    (hnd : NodupKeys st.peerStats) (hps : lookupA st.peerStats p = some ps)
    (hconn : ps.connected = true) (hts : lookupA ps.topics topic = some ts)
    (htp : lookupA params.topics topic = some tp)
    (hz : 0 < params.decayToZero)
    (hfd0 : 0 ≤ tp.firstMessageDeliveriesDecay)
    (hfd1 : tp.firstMessageDeliveriesDecay ≤ 1)
    (hmd0 : 0 ≤ tp.meshMessageDeliveriesDecay)
    (hmd1 : tp.meshMessageDeliveriesDecay ≤ 1)
    (hpd0 : 0 ≤ tp.meshFailurePenaltyDecay)
    (hpd1 : tp.meshFailurePenaltyDecay ≤ 1)
    (hid0 : 0 ≤ tp.invalidMessageDeliveriesDecay)
    (hid1 : tp.invalidMessageDeliveriesDecay ≤ 1)
    (hbd0 : 0 ≤ params.behaviourPenaltyDecay)
    (hbd1 : params.behaviourPenaltyDecay ≤ 1)
    (hfi : 0 ≤ ts.firstMessageDeliveries)
    (hmi : 0 ≤ ts.meshMessageDeliveries)
    (hpi : 0 ≤ ts.meshFailurePenalty)
    (hii : 0 ≤ ts.invalidMessageDeliveries)
    (hbi : 0 ≤ ps.behaviourPenalty) :
    ∃ ps' ts',
      lookupA (runRefreshes params times st).peerStats p = some ps' ∧
      lookupA ps'.topics topic = some ts' ∧
      ts'.firstMessageDeliveries =
        decayedValue tp.firstMessageDeliveriesDecay params.decayToZero
          ts.firstMessageDeliveries times.length ∧
      ts'.meshMessageDeliveries =
        decayedValue tp.meshMessageDeliveriesDecay params.decayToZero
          ts.meshMessageDeliveries times.length ∧
      ts'.meshFailurePenalty =
        decayedValue tp.meshFailurePenaltyDecay params.decayToZero
          ts.meshFailurePenalty times.length ∧
      ts'.invalidMessageDeliveries =
        decayedValue tp.invalidMessageDeliveriesDecay params.decayToZero
          ts.invalidMessageDeliveries times.length ∧
      ps'.behaviourPenalty =
        decayedValue params.behaviourPenaltyDecay params.decayToZero
          ps.behaviourPenalty times.length := by
  obtain ⟨ps', ts', h1, _, h3, h4, h5, h6, h7, h8⟩ :=
    runRefreshes_iter params times st p ps topic tp ts hnd hps hconn hts htp
  refine ⟨ps', ts', h1, h3, ?_, ?_, ?_, ?_, ?_⟩
  · rw [h4, iterDecay_eq_decayedValue _ _ _ hfi hfd0 hfd1 hz]
  · rw [h5, iterDecay_eq_decayedValue _ _ _ hmi hmd0 hmd1 hz]
  · rw [h6, iterDecay_eq_decayedValue _ _ _ hpi hpd0 hpd1 hz]
  · rw [h7, iterDecay_eq_decayedValue _ _ _ hii hid0 hid1 hz]
  · rw [h8, iterDecay_eq_decayedValue _ _ _ hbi hbd0 hbd1 hz]

/-- A connected peer with non-trivial counters on topic `"t"`. -/
def ts5 : TopicStats :=
  { initialTopicStats with
    firstMessageDeliveries := 8
    meshMessageDeliveries := 4
    meshFailurePenalty := 2
    invalidMessageDeliveries := 1 }

/-- The state for the C5 witness. -/
def st5 : PeerScoreState :=
  { peerStats := [("A", { createPeerStats true with topics := [("t", ts5)], behaviourPenalty := 6 })],
    peerIPs := [], deliveryRecords := ⟨[], []⟩, running := false }

/-- Witness for C5: two refresh runs on a concrete state. -/
theorem claim5_decay_law_witness :
    ∃ ps' ts',
      lookupA (runRefreshes paramsW [10, 20] st5).peerStats "A" = some ps' ∧
      lookupA ps'.topics "t" = some ts' ∧
      ts'.firstMessageDeliveries =
        decayedValue tpW.firstMessageDeliveriesDecay paramsW.decayToZero 8 2 ∧
      ts'.meshMessageDeliveries =
        decayedValue tpW.meshMessageDeliveriesDecay paramsW.decayToZero 4 2 ∧
      ts'.meshFailurePenalty =
        decayedValue tpW.meshFailurePenaltyDecay paramsW.decayToZero 2 2 ∧
      ts'.invalidMessageDeliveries =
        decayedValue tpW.invalidMessageDeliveriesDecay paramsW.decayToZero 1 2 ∧
      ps'.behaviourPenalty =
        decayedValue paramsW.behaviourPenaltyDecay paramsW.decayToZero 6 2 := by
  exact claim5_decay_law paramsW [10, 20] st5 "A"
    { createPeerStats true with topics := [("t", ts5)], behaviourPenalty := 6 }
    "t" tpW ts5
    (by simp [NodupKeys, st5]) (by decide) (by decide) (by decide)
    (by simp [paramsW, lookupA]) (by norm_num [paramsW])
    (by norm_num [tpW]) (by norm_num [tpW]) (by norm_num [tpW])
    (by norm_num [tpW]) (by norm_num [tpW]) (by norm_num [tpW])
    (by norm_num [tpW]) (by norm_num [tpW]) (by norm_num [paramsW])
    (by norm_num [paramsW]) (by norm_num [ts5, initialTopicStats])
    (by norm_num [ts5, initialTopicStats])
    (by norm_num [ts5, initialTopicStats])
    (by norm_num [ts5, initialTopicStats]) (by norm_num [createPeerStats])

/-! ## Claim C3 — the duplicate-delivery window -/

/-- C3 (amended, with the qualifiers the source imposes: the peer must
be in the mesh for the topic and `meshMessageDeliveries` below its
cap): for a known peer `p = msg.receivedFrom` not yet in the peer set
of a record that became `Valid` at `t0 = r.validated > 0`, a
`DuplicateMessage` at time `now` increments `meshMessageDeliveries` on
a scored topic of the message on which `p` is in the mesh if and only
if `now ≤ t0 + meshMessageDeliveriesWindow`. -/
theorem claim3_duplicate_window (params : PeerScoreParams) (msg : Message)
    (now : ℚ) (st : PeerScoreState) (r : DeliveryRecord) (ps : PeerStats)
    (ts : TopicStats) (topic : String) (tp : TopicScoreParams)
    (hr : lookupA st.deliveryRecords.records msg.msgId = some r)
    (hst : r.status = DeliveryRecordStatus.valid)
    (hv : r.validated ≠ 0)
    (hnp : msg.receivedFrom ∉ r.peers)
    (hps : lookupA st.peerStats msg.receivedFrom = some ps)
    (htop : topic ∈ msg.topicIDs) (hnd : msg.topicIDs.Nodup)
    (htp : lookupA params.topics topic = some tp)
    (hts : lookupA ps.topics topic = some ts)
    (hmesh : ts.inMesh = true)
    (hcap : ts.meshMessageDeliveries + 1 ≤ tp.meshMessageDeliveriesCap) :
    ∃ ps' ts',
      lookupA (duplicateMessage params msg now st).peerStats
        msg.receivedFrom = some ps' ∧
      lookupA ps'.topics topic = some ts' ∧
      (ts'.meshMessageDeliveries = ts.meshMessageDeliveries + 1 ↔
        now ≤ r.validated + tp.meshMessageDeliveriesWindow) := by
  have hps2 : (duplicateMessage params msg now st).peerStats =
      insertA st.peerStats msg.receivedFrom
        (applyScoredTopics params (markDupTopic r.validated now)
          msg.topicIDs ps) := by
    simp [duplicateMessage, ensureRecord, hr, hnp, hst,
      _markDuplicateMessageDelivery, hps, hv]
  refine ⟨applyScoredTopics params (markDupTopic r.validated now) msg.topicIDs ps,
    markDupTopic r.validated now tp ts, ?_, ?_, ?_⟩
  · rw [hps2, lookupA_insertA]
    simp
  · rw [lookupA_applyScoredTopics_mem params _ msg.topicIDs topic tp htop hnd htp ps]
    simp [hts]
  · by_cases hwin : now ≤ r.validated + tp.meshMessageDeliveriesWindow
    · have hnotgt : ¬(r.validated ≠ 0 ∧
          now > r.validated + tp.meshMessageDeliveriesWindow) :=
        fun hc => absurd hwin (not_le.mpr hc.2)
      have hnc : ¬(ts.meshMessageDeliveries + 1 > tp.meshMessageDeliveriesCap) :=
        not_lt.mpr hcap
      simp [markDupTopic, hmesh, hnotgt, clampCap, hnc, hwin]
    · have hgt : now > r.validated + tp.meshMessageDeliveriesWindow :=
        not_le.mp hwin
      simp [markDupTopic, hmesh, hv, hgt, hwin]

/-- A record for `"m"` that became `Valid` at time 3. -/
def recValid3 : DeliveryRecord :=
  { status := DeliveryRecordStatus.valid, firstSeen := 0, validated := 3,
    peers := [], expire := 1000 }

/-- Known peer `"A"` whose `"t"` stats are fresh (in particular `inMesh`
is false), with the `Valid` record for `"m"`. -/
def st3c : PeerScoreState :=
  { peerStats := [("A", { createPeerStats true with topics := [("t", initialTopicStats)] })],
    peerIPs := [], deliveryRecords := ⟨[("m", recValid3)], ["m"]⟩,
    running := false }

/-- C3 counterexample: on a scored topic of the message for which the
peer is NOT in the mesh, a `DuplicateMessage` inside the window
(5 ≤ 3 + 10) still increments nothing, refuting the claim's
"increments … on each of the message's scored topics iff
t ≤ t0 + window". -/
theorem claim3_counterexample :
    ¬ ((((lookupA (duplicateMessage paramsW msgW 5 st3c).peerStats "A").bind
          (fun ps => lookupA ps.topics "t")).map
            TopicStats.meshMessageDeliveries = some ((0 : ℚ) + 1)) ↔
        ((5 : ℚ) ≤ 3 + tpW.meshMessageDeliveriesWindow)) := by
  have hval :
      (((lookupA (duplicateMessage paramsW msgW 5 st3c).peerStats "A").bind
          (fun ps => lookupA ps.topics "t")).map
            TopicStats.meshMessageDeliveries) = some 0 := by
    norm_num +decide [duplicateMessage, _markDuplicateMessageDelivery,
      markDupTopic, applyScoredTopics, clampCap, ensureRecord, insertA,
      lookupA, paramsW, tpW, msgW, st3c, recValid3, createPeerStats,
      initialTopicStats]
  rw [hval]
  intro h
  have h2 : some (0 : ℚ) = some ((0 : ℚ) + 1) := h.mpr (by norm_num [tpW])
  have h3 : (0 : ℚ) = 0 + 1 := Option.some.inj h2
  norm_num at h3

/-- Like `st3c` but with peer `"A"` in the mesh for `"t"`. -/
def st3w : PeerScoreState :=
  { peerStats := [("A", { createPeerStats true with topics := [("t", { initialTopicStats with inMesh := true })] })],
    peerIPs := [], deliveryRecords := ⟨[("m", recValid3)], ["m"]⟩,
    running := false }

/-- Witness for C3 at a concrete in-mesh, in-window state. -/
theorem claim3_duplicate_window_witness :
    ∃ ps' ts',
      lookupA (duplicateMessage paramsW msgW 5 st3w).peerStats "A" = some ps' ∧
      lookupA ps'.topics "t" = some ts' ∧
      ts'.meshMessageDeliveries = 0 + 1 := by
  obtain ⟨ps', ts', h1, h2, h3⟩ := claim3_duplicate_window paramsW msgW 5 st3w
    recValid3 { createPeerStats true with topics := [("t", { initialTopicStats with inMesh := true })] }
    { initialTopicStats with inMesh := true } "t" tpW
    (by decide) (by decide) (by norm_num [recValid3]) (by decide) (by decide)
    (by decide) (by decide) (by simp [paramsW, lookupA]) (by decide) (by decide)
    (by norm_num [initialTopicStats, tpW])
  exact ⟨ps', ts', h1, h2, h3.mpr (by norm_num [recValid3, tpW])⟩

/-! ## Claim C10 — unbounded penalties for duplicates of an invalid message -/

/-- C10 (amended, with the qualifier `p ∉ record.peers` the early-return
at the top of `duplicateMessage` forces): for a known peer
`p = msg.receivedFrom` not in the peer set of the message's `Invalid`
record, `DuplicateMessage` increments `p`'s `invalidMessageDeliveries`
by 1 on every scored topic of the message, and leaves the delivery
records (in particular the record's status and peer set, hence all the
hypotheses) unchanged — so repeated duplicates from `p` are penalized
without bound. -/
theorem claim10_invalid_duplicates (params : PeerScoreParams) (msg : Message)
    (now : ℚ) (st : PeerScoreState) (r : DeliveryRecord) (ps : PeerStats)
    (topic : String) (tp : TopicScoreParams)
    (hr : lookupA st.deliveryRecords.records msg.msgId = some r)
    (hst : r.status = DeliveryRecordStatus.invalid)
    (hnp : msg.receivedFrom ∉ r.peers)
    (hps : lookupA st.peerStats msg.receivedFrom = some ps)
    (htop : topic ∈ msg.topicIDs) (hnd : msg.topicIDs.Nodup)
    (htp : lookupA params.topics topic = some tp) :
    (duplicateMessage params msg now st).deliveryRecords =
      st.deliveryRecords ∧
    ∃ ps', lookupA (duplicateMessage params msg now st).peerStats
        msg.receivedFrom = some ps' ∧
      (lookupA ps'.topics topic).map TopicStats.invalidMessageDeliveries =
        some (((lookupA ps.topics topic).getD
          initialTopicStats).invalidMessageDeliveries + 1) := by
  have hdup : duplicateMessage params msg now st =
      { st with peerStats :=
          _markInvalidMessageDelivery params msg.receivedFrom msg st.peerStats } := by
    simp [duplicateMessage, ensureRecord, hr, hnp, hst]
  have hmark : _markInvalidMessageDelivery params msg.receivedFrom msg st.peerStats =
      insertA st.peerStats msg.receivedFrom
        (applyScoredTopics params markInvalidTopic msg.topicIDs ps) := by
    simp [_markInvalidMessageDelivery, hps]
  refine ⟨by rw [hdup], ⟨applyScoredTopics params markInvalidTopic msg.topicIDs ps, ?_, ?_⟩⟩
  · rw [hdup]
    simp [hmark, lookupA_insertA]
  · rw [lookupA_applyScoredTopics_mem params _ msg.topicIDs topic tp htop hnd htp ps]
    simp [markInvalidTopic]

/-- An `Invalid` record for `"m"` whose peer set already contains `"A"`
(it forwarded the message while it was still being validated). -/
def recInvalidA : DeliveryRecord :=
  { status := DeliveryRecordStatus.invalid, firstSeen := 0, validated := 0,
    peers := ["A"], expire := 1000 }

/-- Known peer `"A"` with fresh stats for the scored topic `"t"`, and an
`Invalid` record for message `"m"` whose peer set contains `"A"`. -/
def st10c : PeerScoreState :=
  { peerStats := [("A", { createPeerStats true with topics := [("t", initialTopicStats)] })],
    peerIPs := [], deliveryRecords := ⟨[("m", recInvalidA)], ["m"]⟩,
    running := false }

/-- C10 counterexample: for a known peer that is already in the invalid
record's peer set, `DuplicateMessage` returns at the `drec.peers.has`
check and does not increment `invalidMessageDeliveries` (it stays 0
instead of becoming 1), refuting the claim's "for every known peer p …
increments … on every call". -/
theorem claim10_counterexample :
    ((lookupA st10c.peerStats "A").bind (fun ps => lookupA ps.topics "t")).map
      TopicStats.invalidMessageDeliveries = some 0 ∧
    ((lookupA (duplicateMessage paramsW msgW 5 st10c).peerStats "A").bind
        (fun ps => lookupA ps.topics "t")).map
      TopicStats.invalidMessageDeliveries = some 0 ∧
    (0 : ℚ) + 1 ≠ 0 := by
  refine ⟨by decide, ?_, by norm_num⟩
  simp [duplicateMessage, ensureRecord, lookupA, st10c, recInvalidA, paramsW,
    msgW, createPeerStats, initialTopicStats]

/-- Witness for C10 at a concrete state (peer `"A"` not yet in the
record's peer set). -/
theorem claim10_invalid_duplicates_witness :
    ∃ ps', lookupA (duplicateMessage paramsW msgW 5
        { st10c with deliveryRecords := ⟨[("m", { recInvalidA with peers := [] })], ["m"]⟩ }).peerStats
        "A" = some ps' ∧
      (lookupA ps'.topics "t").map TopicStats.invalidMessageDeliveries =
        some 1 := by
  have h := claim10_invalid_duplicates paramsW msgW 5
    { st10c with deliveryRecords := ⟨[("m", { recInvalidA with peers := [] })], ["m"]⟩ }
    { recInvalidA with peers := [] }
    { createPeerStats true with topics := [("t", initialTopicStats)] }
    "t" tpW (by decide) (by decide) (by decide) (by decide) (by decide)
    (by decide) (by simp [paramsW, lookupA])
  rcases h.2 with ⟨ps', h1, h2⟩
  refine ⟨ps', h1, ?_⟩
  rw [h2]
  norm_num +decide [lookupA, initialTopicStats]

/-! ## Claim C7 — ingest hooks on an unknown peer -/

theorem lookupA_markInvalid_none (params : PeerScoreParams) (p' : String)
    (msg : Message) (m : List (String × PeerStats)) (p : String)
    (h : lookupA m p = none) :
    lookupA (_markInvalidMessageDelivery params p' msg m) p = none := by
  unfold _markInvalidMessageDelivery
  cases hp' : lookupA m p' with
  | none => exact h
  | some ps' =>
      rw [lookupA_insertA]
      have : ¬p = p' := fun hh => by rw [hh, hp'] at h; exact Option.noConfusion h
      simp [this, h]

theorem lookupA_markFirst_none (params : PeerScoreParams) (p' : String)
    (msg : Message) (m : List (String × PeerStats)) (p : String)
    (h : lookupA m p = none) :
    lookupA (_markFirstMessageDelivery params p' msg m) p = none := by
  unfold _markFirstMessageDelivery
  cases hp' : lookupA m p' with
  | none => exact h
  | some ps' =>
      rw [lookupA_insertA]
      have : ¬p = p' := fun hh => by rw [hh, hp'] at h; exact Option.noConfusion h
      simp [this, h]

theorem lookupA_markDuplicate_none (params : PeerScoreParams) (p' : String)
    (msg : Message) (vt now : ℚ) (m : List (String × PeerStats)) (p : String)
    (h : lookupA m p = none) :
    lookupA (_markDuplicateMessageDelivery params p' msg vt now m) p = none := by
  unfold _markDuplicateMessageDelivery
  cases hp' : lookupA m p' with
  | none => exact h
  | some ps' =>
      rw [lookupA_insertA]
      have : ¬p = p' := fun hh => by rw [hh, hp'] at h; exact Option.noConfusion h
      simp [this, h]

theorem lookupA_foldl_markInvalid_none (params : PeerScoreParams)
    (msg : Message) (peers : List String) (p : String) :
    ∀ m : List (String × PeerStats), lookupA m p = none →
      lookupA (peers.foldl (fun m q => _markInvalidMessageDelivery params q msg m) m) p = none := by
  induction peers with
  | nil => intro m h; exact h
  | cons q rest ih =>
      intro m h
      exact ih _ (lookupA_markInvalid_none params q msg m p h)

theorem lookupA_foldl_markDuplicate_none (params : PeerScoreParams)
    (msg : Message) (id : String) (now : ℚ) (peers : List String) (p : String) :
    ∀ m : List (String × PeerStats), lookupA m p = none →
      lookupA (peers.foldl
        (fun m q => if q ≠ id then _markDuplicateMessageDelivery params q msg 0 now m else m)
        m) p = none := by
  induction peers with
  | nil => intro m h; exact h
  | cons q rest ih =>
      intro m h
      by_cases hq : q ≠ id
      · simp only [List.foldl_cons, if_pos hq]
        exact ih _ (lookupA_markDuplicate_none params q msg 0 now m p h)
      · simp only [List.foldl_cons, if_neg hq]
        exact ih _ h

/-- C7 (amended): for a peer id with no PeerStats entry,
`RemovePeer`, `Graft`, `Prune` and `AddPenalty` leave the entire engine
state unchanged, and `DeliverMessage`, `RejectMessage` and
`DuplicateMessage` never create a PeerStats entry for it (and hence
change no counter of that peer) — although they may still mutate the
message's delivery record, including adding the unknown peer id to the
record's peer set (`DuplicateMessage`). -/
theorem claim7_unknown_peer (params : PeerScoreParams)
    (p topic reason : String) (x now : ℚ) (msg : Message)
    (st : PeerScoreState) (hu : lookupA st.peerStats p = none)
    (hm : msg.receivedFrom = p) :
    removePeer params p now st = st ∧
    graft params p topic now st = st ∧
    prune params p topic st = st ∧
    addPenalty p x st = st ∧
    lookupA (deliverMessage params msg now st).peerStats p = none ∧
    lookupA (rejectMessage params msg reason now st).peerStats p = none ∧
    lookupA (duplicateMessage params msg now st).peerStats p = none := by
  subst hm
  refine ⟨?_, ?_, ?_, ?_, ?_, ?_, ?_⟩
  · simp [removePeer, hu]
  · simp [graft, hu]
  · simp [prune, hu]
  · simp [addPenalty, hu]
  · have h1 := lookupA_markFirst_none params msg.receivedFrom msg st.peerStats
      msg.receivedFrom hu
    simp only [deliverMessage]
    cases hrec : ensureRecord now msg.msgId st.deliveryRecords with
    | mk drec dr1 =>
        by_cases hs : drec.status ≠ DeliveryRecordStatus.unknown
        · simp only [if_pos hs]
          exact h1
        · simp only [if_neg hs]
          exact lookupA_foldl_markDuplicate_none params msg msg.receivedFrom now
            drec.peers msg.receivedFrom _ h1
  · simp only [rejectMessage]
    by_cases hsig : reason = ERR_MISSING_SIGNATURE ∨ reason = ERR_INVALID_SIGNATURE
    · simp only [if_pos hsig]
      exact lookupA_markInvalid_none params msg.receivedFrom msg st.peerStats
        msg.receivedFrom hu
    · simp only [if_neg hsig]
      cases hrec : ensureRecord now msg.msgId st.deliveryRecords with
      | mk drec dr1 =>
          by_cases hs : drec.status ≠ DeliveryRecordStatus.unknown
          · simp only [if_pos hs]
            exact hu
          · simp only [if_neg hs]
            by_cases hig : reason = ERR_TOPIC_VALIDATOR_IGNORE
            · simp only [if_pos hig]
              exact hu
            · simp only [if_neg hig]
              exact lookupA_foldl_markInvalid_none params msg drec.peers
                msg.receivedFrom _
                (lookupA_markInvalid_none params msg.receivedFrom msg
                  st.peerStats msg.receivedFrom hu)
  · simp only [duplicateMessage]
    cases hrec : ensureRecord now msg.msgId st.deliveryRecords with
    | mk drec dr1 =>
        by_cases hin : msg.receivedFrom ∈ drec.peers
        · simp only [if_pos hin]
          exact hu
        · simp only [if_neg hin]
          cases drec.status
          · exact hu
          · exact lookupA_markDuplicate_none params msg.receivedFrom msg
              drec.validated now st.peerStats msg.receivedFrom hu
          · exact lookupA_markInvalid_none params msg.receivedFrom msg
              st.peerStats msg.receivedFrom hu
          · exact hu

/-- A record in `Unknown` status with an empty peer set, and no known
peers at all. -/
def st7c : PeerScoreState :=
  { peerStats := [], peerIPs := [],
    deliveryRecords := ⟨[("m", { status := DeliveryRecordStatus.unknown, firstSeen := 0, validated := 0, peers := [], expire := 1000 })], ["m"]⟩,
    running := false }

/-- C7 counterexample: `DuplicateMessage` from the unknown peer `"A"`
adds `"A"` to the record's peer set, so the hook does mutate engine
state on behalf of an unknown peer, refuting "silently changes no
state". -/
theorem claim7_counterexample :
    lookupA st7c.peerStats "A" = none ∧
    (lookupA (duplicateMessage paramsW msgW 5 st7c).deliveryRecords.records
        "m").map DeliveryRecord.peers = some ["A"] ∧
    (lookupA st7c.deliveryRecords.records "m").map DeliveryRecord.peers =
      some [] ∧
    duplicateMessage paramsW msgW 5 st7c ≠ st7c := by
  refine ⟨by decide, by decide, by decide, ?_⟩
  intro h
  have := congrArg
    (fun s => (lookupA s.deliveryRecords.records "m").map DeliveryRecord.peers) h
  revert this
  decide

/-- Witness for C7 at a concrete state with no known peers. -/
theorem claim7_unknown_peer_witness :
    removePeer paramsW "A" 5 st7c = st7c ∧
    lookupA (duplicateMessage paramsW msgW 5 st7c).peerStats "A" = none := by
  have h := claim7_unknown_peer paramsW "A" "t" "reason" 1 5 msgW st7c
    (by decide) (by decide)
  exact ⟨h.1, h.2.2.2.2.2.2⟩

/-! ## Claim C2 — counter bounds under every ingest sequence -/

/-- One ingest-hook call (or `_refreshScores` run) with the external
inputs it consumes (its time, the connection manager's answer). -/
inductive Op where
  | addPeerOp (id : String) (ips : List String)
  | removePeerOp (id : String) (now : ℚ)
  | graftOp (id : String) (topic : String) (now : ℚ)
  | pruneOp (id : String) (topic : String)
  | deliverOp (msg : Message) (now : ℚ)
  | rejectOp (msg : Message) (reason : String) (now : ℚ)
  | duplicateOp (msg : Message) (now : ℚ)
  | addPenaltyOp (id : String) (x : ℚ)
  | refreshOp (now : ℚ)

/-- Dispatch one `Op` to the corresponding tracer.ts method. -/
def applyOp (params : PeerScoreParams) (st : PeerScoreState) : Op → PeerScoreState
  | Op.addPeerOp id ips => addPeer id ips st
  | Op.removePeerOp id now => removePeer params id now st
  | Op.graftOp id topic now => graft params id topic now st
  | Op.pruneOp id topic => prune params id topic st
  | Op.deliverOp msg now => deliverMessage params msg now st
  | Op.rejectOp msg reason now => rejectMessage params msg reason now st
  | Op.duplicateOp msg now => duplicateMessage params msg now st
  | Op.addPenaltyOp id x => addPenalty id x st
  | Op.refreshOp now => _refreshScores params now st

/-- Run a sequence of calls left to right. -/
def runOps (params : PeerScoreParams) (ops : List Op)
    (st : PeerScoreState) : PeerScoreState :=
  ops.foldl (applyOp params) st

/-- Every `AddPenalty` in the sequence carries a non-negative amount
(the overlay feeds broken-promise counts). -/
def nonNegPenalties : List Op → Bool
  | [] => true
  | Op.addPenaltyOp _ x :: rest =>
      if 0 ≤ x then nonNegPenalties rest else false
  | _ :: rest => nonNegPenalties rest

/-- The parameter bounds `validatePeerScoreParams` (spec §4.1)
guarantees, as far as the counter-bounds invariant needs them. -/
def GoodTopicParams (tp : TopicScoreParams) : Prop :=
  0 ≤ tp.firstMessageDeliveriesCap ∧ 0 ≤ tp.meshMessageDeliveriesCap ∧
  0 ≤ tp.firstMessageDeliveriesDecay ∧ tp.firstMessageDeliveriesDecay ≤ 1 ∧
  0 ≤ tp.meshMessageDeliveriesDecay ∧ tp.meshMessageDeliveriesDecay ≤ 1 ∧
  0 ≤ tp.meshFailurePenaltyDecay ∧ tp.meshFailurePenaltyDecay ≤ 1 ∧
  0 ≤ tp.invalidMessageDeliveriesDecay ∧ tp.invalidMessageDeliveriesDecay ≤ 1

/-- See `GoodTopicParams`. -/
def GoodParams (params : PeerScoreParams) : Prop :=
  (∀ e ∈ params.topics, GoodTopicParams e.2) ∧
  0 ≤ params.behaviourPenaltyDecay ∧ params.behaviourPenaltyDecay ≤ 1

/-- The per-topic counter bounds: the four decayed counters are ≥ 0,
and the two capped ones are within their caps when the topic is
scored. -/
def TopicOK (params : PeerScoreParams) (topic : String) (ts : TopicStats) :
    Prop :=
  0 ≤ ts.firstMessageDeliveries ∧ 0 ≤ ts.meshMessageDeliveries ∧
  0 ≤ ts.meshFailurePenalty ∧ 0 ≤ ts.invalidMessageDeliveries ∧
  ∀ tp, lookupA params.topics topic = some tp →
    ts.firstMessageDeliveries ≤ tp.firstMessageDeliveriesCap ∧
    ts.meshMessageDeliveries ≤ tp.meshMessageDeliveriesCap

/-- Per-peer counter bounds. -/
def PeerOKP (params : PeerScoreParams) (ps : PeerStats) : Prop :=
  0 ≤ ps.behaviourPenalty ∧ ∀ e ∈ ps.topics, TopicOK params e.1 e.2

/-- The engine-wide counter-bounds invariant of C2. -/
def CounterInv (params : PeerScoreParams) (st : PeerScoreState) : Prop :=
  ∀ e ∈ st.peerStats, PeerOKP params e.2

theorem clampCap_bounds (cap x : ℚ) (hx : 0 ≤ x) (hcap : 0 ≤ cap) :
    0 ≤ clampCap cap x ∧ clampCap cap x ≤ cap := by
  unfold clampCap
  by_cases h : x > cap
  · simp [h, hcap]
  · simp [h]
    exact ⟨hx, not_lt.mp h⟩

theorem goodTopic_of_lookup (params : PeerScoreParams) (topic : String)
    (tp : TopicScoreParams) (hg : GoodParams params)
    (htp : lookupA params.topics topic = some tp) : GoodTopicParams tp :=
  hg.1 (topic, tp) (mem_of_lookupA params.topics topic tp htp)

theorem topicOK_initial (params : PeerScoreParams) (topic : String)
    (hg : GoodParams params) : TopicOK params topic initialTopicStats := by
  refine ⟨le_refl 0, le_refl 0, le_refl 0, le_refl 0, fun tp htp => ?_⟩
  have h := goodTopic_of_lookup params topic tp hg htp
  exact ⟨h.1, h.2.1⟩

theorem topicOK_markFirst (params : PeerScoreParams) (topic : String)
    (tp : TopicScoreParams) (ts : TopicStats)
    (htp : lookupA params.topics topic = some tp) (hg : GoodParams params)
    (h : TopicOK params topic ts) :
    TopicOK params topic (markFirstTopic tp ts) := by
  obtain ⟨h1, h2, h3, h4, h5⟩ := h
  have hgt := goodTopic_of_lookup params topic tp hg htp
  have hf := clampCap_bounds tp.firstMessageDeliveriesCap
    (ts.firstMessageDeliveries + 1) (by linarith) hgt.1
  have hm := clampCap_bounds tp.meshMessageDeliveriesCap
    (ts.meshMessageDeliveries + 1) (by linarith) hgt.2.1
  unfold markFirstTopic
  by_cases hin : ts.inMesh
  · refine ⟨by simp [hin, hf.1], by simp [hin, hm.1], by simp [hin, h3],
      by simp [hin, h4], fun tp' htp' => ?_⟩
    rw [htp] at htp'
    cases htp'
    exact ⟨by simp [hin, hf.2], by simp [hin, hm.2]⟩
  · refine ⟨by simp [hin, hf.1], by simp [hin, h2], by simp [hin, h3],
      by simp [hin, h4], fun tp' htp' => ?_⟩
    rw [htp] at htp'
    cases htp'
    have := (h5 tp htp).2
    exact ⟨by simp [hin, hf.2], by simp [hin, this]⟩

theorem topicOK_markDup (params : PeerScoreParams) (topic : String)
    (tp : TopicScoreParams) (ts : TopicStats) (vt nowEff : ℚ)
    (htp : lookupA params.topics topic = some tp) (hg : GoodParams params)
    (h : TopicOK params topic ts) :
    TopicOK params topic (markDupTopic vt nowEff tp ts) := by
  obtain ⟨h1, h2, h3, h4, h5⟩ := h
  have hgt := goodTopic_of_lookup params topic tp hg htp
  have hm := clampCap_bounds tp.meshMessageDeliveriesCap
    (ts.meshMessageDeliveries + 1) (by linarith) hgt.2.1
  unfold markDupTopic
  by_cases hin : ts.inMesh = true
  · rw [if_pos hin]
    by_cases hskip : vt ≠ 0 ∧ nowEff > vt + tp.meshMessageDeliveriesWindow
    · rw [if_pos hskip]
      exact ⟨h1, h2, h3, h4, h5⟩
    · rw [if_neg hskip]
      refine ⟨h1, hm.1, h3, h4, fun tp' htp' => ?_⟩
      rw [htp] at htp'
      cases htp'
      exact ⟨(h5 tp htp).1, hm.2⟩
  · rw [if_neg hin]
    exact ⟨h1, h2, h3, h4, h5⟩

theorem topicOK_markInvalid (params : PeerScoreParams) (topic : String)
    (tp : TopicScoreParams) (ts : TopicStats) (h : TopicOK params topic ts) :
    TopicOK params topic (markInvalidTopic tp ts) := by
  obtain ⟨h1, h2, h3, h4, h5⟩ := h
  exact ⟨h1, h2, h3, by simp [markInvalidTopic]; linarith,
    fun tp' htp' => h5 tp' htp'⟩

theorem decayCounter_nonneg (d z c : ℚ) (hc : 0 ≤ c) (hd : 0 ≤ d) :
    0 ≤ decayCounter d z c := by
  unfold decayCounter
  split
  · exact le_refl 0
  · exact mul_nonneg hc hd

theorem decayCounter_le_cap (d z c cap : ℚ) (hc : 0 ≤ c) (hd1 : d ≤ 1)
    (hcap : c ≤ cap) (hcap0 : 0 ≤ cap) : decayCounter d z c ≤ cap := by
  unfold decayCounter
  split
  · exact hcap0
  · calc c * d ≤ c * 1 := mul_le_mul_of_nonneg_left hd1 hc
    _ = c := by ring
    _ ≤ cap := hcap

theorem topicOK_decay (params : PeerScoreParams) (now : ℚ) (topic : String)
    (ts : TopicStats) (hg : GoodParams params) (h : TopicOK params topic ts) :
    TopicOK params topic (decayTopic params now topic ts) := by
  obtain ⟨h1, h2, h3, h4, h5⟩ := h
  cases htp : lookupA params.topics topic with
  | none =>
      unfold decayTopic
      rw [htp]
      exact ⟨h1, h2, h3, h4, fun tp' htp' => by rw [htp] at htp'; cases htp'⟩
  | some tp =>
      have hgt := goodTopic_of_lookup params topic tp hg htp
      obtain ⟨hc1, hc2, hc3, hc4⟩ := decayTopic_counters params now topic ts tp htp
      refine ⟨?_, ?_, ?_, ?_, fun tp' htp' => ?_⟩
      · rw [hc1]
        exact decayCounter_nonneg _ _ _ h1 hgt.2.2.1
      · rw [hc2]
        exact decayCounter_nonneg _ _ _ h2 hgt.2.2.2.2.1
      · rw [hc3]
        exact decayCounter_nonneg _ _ _ h3 hgt.2.2.2.2.2.2.1
      · rw [hc4]
        exact decayCounter_nonneg _ _ _ h4 hgt.2.2.2.2.2.2.2.2.1
      · rw [htp] at htp'
        cases htp'
        constructor
        · rw [hc1]
          exact decayCounter_le_cap _ _ _ _ h1 hgt.2.2.2.1 ((h5 tp htp).1) hgt.1
        · rw [hc2]
          exact decayCounter_le_cap _ _ _ _ h2 hgt.2.2.2.2.2.1 ((h5 tp htp).2)
            hgt.2.1

theorem topicOK_retain (params : PeerScoreParams) (e : String × TopicStats)
    (hg : GoodParams params) (h : TopicOK params e.1 e.2) :
    TopicOK params (retainTopic params e).1 (retainTopic params e).2 := by
  obtain ⟨h1, h2, h3, h4, h5⟩ := h
  cases htp : lookupA params.topics e.1 with
  | none =>
      have hre : retainTopic params e =
          (e.1, { e.2 with firstMessageDeliveries := 0, inMesh := false }) := by
        simp [retainTopic, htp]
      rw [hre]
      exact ⟨le_refl 0, h2, h3, h4, fun tp' htp' => by rw [htp] at htp'; cases htp'⟩
  | some tp =>
      have hgt := goodTopic_of_lookup params e.1 tp hg htp
      by_cases hpen : e.2.inMesh ∧ e.2.meshMessageDeliveriesActive ∧
          e.2.meshMessageDeliveries < tp.meshMessageDeliveriesThreshold
      · have hre : retainTopic params e =
            (e.1, { e.2 with
              firstMessageDeliveries := 0
              inMesh := false
              meshFailurePenalty := e.2.meshFailurePenalty + (tp.meshMessageDeliveriesThreshold - e.2.meshMessageDeliveries) * (tp.meshMessageDeliveriesThreshold - e.2.meshMessageDeliveries) }) := by
          simp [retainTopic, htp, hpen]
        rw [hre]
        have hsq : 0 ≤ (tp.meshMessageDeliveriesThreshold -
            e.2.meshMessageDeliveries) *
            (tp.meshMessageDeliveriesThreshold - e.2.meshMessageDeliveries) :=
          mul_self_nonneg _
        refine ⟨le_refl 0, h2, by simp only []; linarith, h4,
          fun tp' htp' => ?_⟩
        rw [htp] at htp'
        cases htp'
        exact ⟨hgt.1, (h5 tp htp).2⟩
      · have hre : retainTopic params e =
            (e.1, { e.2 with firstMessageDeliveries := 0, inMesh := false }) := by
          simp [retainTopic, htp, hpen]
        rw [hre]
        refine ⟨le_refl 0, h2, h3, h4, fun tp' htp' => ?_⟩
        rw [htp] at htp'
        cases htp'
        exact ⟨hgt.1, (h5 tp htp).2⟩

theorem topicOK_graft (params : PeerScoreParams) (topic : String)
    (ts : TopicStats) (now : ℚ) (h : TopicOK params topic ts) :
    TopicOK params topic
      { ts with inMesh := true, graftTime := now, meshTime := 0,
                meshMessageDeliveriesActive := false } := by
  obtain ⟨h1, h2, h3, h4, h5⟩ := h
  exact ⟨h1, h2, h3, h4, fun tp' htp' => h5 tp' htp'⟩

theorem peerOK_applyScoredTopics (params : PeerScoreParams)
    (f : TopicScoreParams → TopicStats → TopicStats) (l : List String)
    (hg : GoodParams params)
    (hf : ∀ topic tp ts, lookupA params.topics topic = some tp →
      TopicOK params topic ts → TopicOK params topic (f tp ts)) :
    ∀ ps, PeerOKP params ps →
      PeerOKP params (applyScoredTopics params f l ps) := by
  induction l with
  | nil => intro ps h; exact h
  | cons t rest ih =>
      intro ps h
      simp only [applyScoredTopics, List.foldl_cons]
      cases htp : lookupA params.topics t with
      | none =>
          have := ih ps h
          simp only [applyScoredTopics] at this
          simpa [htp] using this
      | some tp =>
          have hts0 : TopicOK params t
              ((lookupA ps.topics t).getD initialTopicStats) := by
            cases hts : lookupA ps.topics t with
            | none => simpa using topicOK_initial params t hg
            | some ts => simpa using h.2 (t, ts) (mem_of_lookupA _ _ _ hts)
          have hps1 : PeerOKP params { ps with topics := insertA ps.topics t (f tp ((lookupA ps.topics t).getD initialTopicStats)) } := by
            refine ⟨h.1, fun e he => ?_⟩
            rcases mem_insertA _ _ _ _ he with rfl | hmem
            · exact hf t tp _ htp hts0
            · exact h.2 e hmem
          have := ih _ hps1
          simp only [applyScoredTopics] at this
          simpa [htp] using this

theorem peerStatsOK_markInvalid (params : PeerScoreParams) (id : String)
    (msg : Message) (m : List (String × PeerStats)) (hg : GoodParams params)
    (h : ∀ e ∈ m, PeerOKP params e.2) :
    ∀ e ∈ _markInvalidMessageDelivery params id msg m, PeerOKP params e.2 := by
  unfold _markInvalidMessageDelivery
  cases hps : lookupA m id with
  | none => exact h
  | some ps =>
      intro e he
      rcases mem_insertA _ _ _ _ he with rfl | hmem
      · exact peerOK_applyScoredTopics params markInvalidTopic msg.topicIDs hg
          (fun topic tp ts _ hts => topicOK_markInvalid params topic tp ts hts)
          ps (h (id, ps) (mem_of_lookupA _ _ _ hps))
      · exact h e hmem

theorem peerStatsOK_markFirst (params : PeerScoreParams) (id : String)
    (msg : Message) (m : List (String × PeerStats)) (hg : GoodParams params)
    (h : ∀ e ∈ m, PeerOKP params e.2) :
    ∀ e ∈ _markFirstMessageDelivery params id msg m, PeerOKP params e.2 := by
  unfold _markFirstMessageDelivery
  cases hps : lookupA m id with
  | none => exact h
  | some ps =>
      intro e he
      rcases mem_insertA _ _ _ _ he with rfl | hmem
      · exact peerOK_applyScoredTopics params markFirstTopic msg.topicIDs hg
          (fun topic tp ts htp hts =>
            topicOK_markFirst params topic tp ts htp hg hts)
          ps (h (id, ps) (mem_of_lookupA _ _ _ hps))
      · exact h e hmem

theorem peerStatsOK_markDup (params : PeerScoreParams) (id : String)
    (msg : Message) (vt now : ℚ) (m : List (String × PeerStats))
    (hg : GoodParams params) (h : ∀ e ∈ m, PeerOKP params e.2) :
    ∀ e ∈ _markDuplicateMessageDelivery params id msg vt now m,
      PeerOKP params e.2 := by
  unfold _markDuplicateMessageDelivery
  cases hps : lookupA m id with
  | none => exact h
  | some ps =>
      intro e he
      rcases mem_insertA _ _ _ _ he with rfl | hmem
      · exact peerOK_applyScoredTopics params _ msg.topicIDs hg
          (fun topic tp ts htp hts =>
            topicOK_markDup params topic tp ts vt _ htp hg hts)
          ps (h (id, ps) (mem_of_lookupA _ _ _ hps))
      · exact h e hmem

theorem peerStatsOK_foldl_markInvalid (params : PeerScoreParams)
    (msg : Message) (peers : List String) (hg : GoodParams params) :
    ∀ m, (∀ e ∈ m, PeerOKP params e.2) →
      ∀ e ∈ peers.foldl
        (fun m q => _markInvalidMessageDelivery params q msg m) m,
        PeerOKP params e.2 := by
  induction peers with
  | nil => intro m h; exact h
  | cons q rest ih =>
      intro m h
      exact ih _ (peerStatsOK_markInvalid params q msg m hg h)

theorem peerStatsOK_foldl_markDup (params : PeerScoreParams) (msg : Message)
    (id : String) (now : ℚ) (peers : List String) (hg : GoodParams params) :
    ∀ m, (∀ e ∈ m, PeerOKP params e.2) →
      ∀ e ∈ peers.foldl
        (fun m q => if q ≠ id then
          _markDuplicateMessageDelivery params q msg 0 now m else m) m,
        PeerOKP params e.2 := by
  induction peers with
  | nil => intro m h; exact h
  | cons q rest ih =>
      intro m h
      by_cases hq : q ≠ id
      · simp only [List.foldl_cons, if_pos hq]
        exact ih _ (peerStatsOK_markDup params q msg 0 now m hg h)
      · simp only [List.foldl_cons, if_neg hq]
        exact ih _ h

theorem peerOK_decayPeer (params : PeerScoreParams) (now : ℚ)
    (ps : PeerStats) (hg : GoodParams params) (h : PeerOKP params ps) :
    PeerOKP params (decayPeer params now ps) := by
  refine ⟨decayCounter_nonneg _ _ _ h.1 hg.2.1, fun e he => ?_⟩
  unfold decayPeer at he
  simp only [List.mem_map] at he
  obtain ⟨e0, he0, rfl⟩ := he
  exact topicOK_decay params now e0.1 e0.2 hg (h.2 e0 he0)

theorem counterInv_applyOp (params : PeerScoreParams) (st : PeerScoreState)
    (op : Op) (hg : GoodParams params)
    (hpen : ∀ id x, op = Op.addPenaltyOp id x → 0 ≤ x)
    (h : CounterInv params st) : CounterInv params (applyOp params st op) := by
  cases op with
  | addPeerOp id ips =>
      intro e he
      simp only [applyOp, addPeer] at he
      rcases mem_insertA _ _ _ _ he with rfl | hmem
      · exact ⟨le_refl 0, fun e' he' => by simp [createPeerStats] at he'⟩
      · exact h e hmem
  | removePeerOp id now =>
      simp only [applyOp, removePeer]
      cases hps : lookupA st.peerStats id with
      | none => exact h
      | some ps =>
          by_cases hsc : 0 < score params st id
          · simp only [if_pos hsc]
            intro e he
            exact h e (mem_eraseA _ _ _ he)
          · simp only [if_neg hsc]
            intro e he
            rcases mem_insertA _ _ _ _ he with rfl | hmem
            · refine ⟨(h (id, ps) (mem_of_lookupA _ _ _ hps)).1, fun e' he' => ?_⟩
              simp only [List.mem_map] at he'
              obtain ⟨e0, he0, rfl⟩ := he'
              exact topicOK_retain params e0 hg
                ((h (id, ps) (mem_of_lookupA _ _ _ hps)).2 e0 he0)
            · exact h e hmem
  | graftOp id topic now =>
      simp only [applyOp, graft]
      cases hps : lookupA st.peerStats id with
      | none => exact h
      | some ps =>
          cases htp : lookupA params.topics topic with
          | none => exact h
          | some tp =>
              intro e he
              rcases mem_insertA _ _ _ _ he with rfl | hmem
              · have hok := h (id, ps) (mem_of_lookupA _ _ _ hps)
                refine ⟨hok.1, fun e' he' => ?_⟩
                rcases mem_insertA _ _ _ _ he' with rfl | hmem'
                · refine topicOK_graft params topic _ now ?_
                  cases hts : lookupA ps.topics topic with
                  | none => simpa using topicOK_initial params topic hg
                  | some ts => simpa using hok.2 (topic, ts) (mem_of_lookupA _ _ _ hts)
                · exact hok.2 e' hmem'
              · exact h e hmem
  | pruneOp id topic =>
      simp only [applyOp, prune]
      cases hps : lookupA st.peerStats id with
      | none => exact h
      | some ps =>
          cases htp : lookupA params.topics topic with
          | none => exact h
          | some tp =>
              intro e he
              rcases mem_insertA _ _ _ _ he with rfl | hmem
              · have hok := h (id, ps) (mem_of_lookupA _ _ _ hps)
                refine ⟨hok.1, fun e' he' => ?_⟩
                rcases mem_insertA _ _ _ _ he' with rfl | hmem'
                · have hts0 : TopicOK params topic
                      ((lookupA ps.topics topic).getD initialTopicStats) := by
                    cases hts : lookupA ps.topics topic with
                    | none => simpa using topicOK_initial params topic hg
                    | some ts =>
                        simpa using hok.2 (topic, ts) (mem_of_lookupA _ _ _ hts)
                  obtain ⟨h1, h2, h3, h4, h5⟩ := hts0
                  by_cases hcond :
                      ((lookupA ps.topics topic).getD
                        initialTopicStats).meshMessageDeliveriesActive ∧
                      ((lookupA ps.topics topic).getD
                        initialTopicStats).meshMessageDeliveries <
                        tp.meshMessageDeliveriesThreshold
                  · rw [if_pos hcond]
                    refine ⟨h1, h2, ?_, h4, fun tp' htp' => h5 tp' htp'⟩
                    have hsq := mul_self_nonneg
                      (tp.meshMessageDeliveriesThreshold -
                        ((lookupA ps.topics topic).getD
                          initialTopicStats).meshMessageDeliveries)
                    simp only []
                    linarith
                  · rw [if_neg hcond]
                    exact ⟨h1, h2, h3, h4, fun tp' htp' => h5 tp' htp'⟩
                · exact hok.2 e' hmem'
              · exact h e hmem
  | deliverOp msg now =>
      simp only [applyOp, deliverMessage]
      have h1 := peerStatsOK_markFirst params msg.receivedFrom msg
        st.peerStats hg h
      by_cases hs : (ensureRecord now msg.msgId st.deliveryRecords).1.status ≠
          DeliveryRecordStatus.unknown
      · simp only [if_pos hs]
        exact h1
      · simp only [if_neg hs]
        exact peerStatsOK_foldl_markDup params msg msg.receivedFrom now
          (ensureRecord now msg.msgId st.deliveryRecords).1.peers hg _ h1
  | rejectOp msg reason now =>
      simp only [applyOp, rejectMessage]
      by_cases hsig : reason = ERR_MISSING_SIGNATURE ∨
          reason = ERR_INVALID_SIGNATURE
      · simp only [if_pos hsig]
        exact peerStatsOK_markInvalid params msg.receivedFrom msg
          st.peerStats hg h
      · simp only [if_neg hsig]
        by_cases hs : (ensureRecord now msg.msgId st.deliveryRecords).1.status ≠
            DeliveryRecordStatus.unknown
        · simp only [if_pos hs]
          exact h
        · simp only [if_neg hs]
          by_cases hig : reason = ERR_TOPIC_VALIDATOR_IGNORE
          · simp only [if_pos hig]
            exact h
          · simp only [if_neg hig]
            exact peerStatsOK_foldl_markInvalid params msg
              (ensureRecord now msg.msgId st.deliveryRecords).1.peers hg _
              (peerStatsOK_markInvalid params msg.receivedFrom msg
                st.peerStats hg h)
  | duplicateOp msg now =>
      simp only [applyOp, duplicateMessage]
      by_cases hin : msg.receivedFrom ∈
          (ensureRecord now msg.msgId st.deliveryRecords).1.peers
      · simp only [if_pos hin]
        exact h
      · simp only [if_neg hin]
        cases (ensureRecord now msg.msgId st.deliveryRecords).1.status
        · exact h
        · exact peerStatsOK_markDup params msg.receivedFrom msg _ now
            st.peerStats hg h
        · exact peerStatsOK_markInvalid params msg.receivedFrom msg
            st.peerStats hg h
        · exact h
  | addPenaltyOp id x =>
      have hx : 0 ≤ x := hpen id x rfl
      simp only [applyOp, addPenalty]
      cases hps : lookupA st.peerStats id with
      | none => exact h
      | some ps =>
          intro e he
          rcases mem_insertA _ _ _ _ he with rfl | hmem
          · have hok := h (id, ps) (mem_of_lookupA _ _ _ hps)
            exact ⟨add_nonneg hok.1 hx, hok.2⟩
          · exact h e hmem
  | refreshOp now =>
      intro e he
      simp only [applyOp] at he
      rw [refreshScores_peerStats] at he
      rw [List.mem_filterMap] at he
      obtain ⟨e0, he0, hg0⟩ := he
      unfold refreshEntry at hg0
      by_cases hc : e0.2.connected
      · simp only [hc, if_true] at hg0
        cases hg0
        exact peerOK_decayPeer params now e0.2 hg (h e0 he0)
      · simp only [hc, Bool.false_eq_true, if_false] at hg0
        by_cases hex : e0.2.expire < now
        · simp [hex] at hg0
        · simp only [hex, if_false] at hg0
          cases hg0
          exact h _ he0

theorem counterInv_runOps (params : PeerScoreParams) (ops : List Op)
    (hg : GoodParams params) :
    ∀ st, nonNegPenalties ops = true → CounterInv params st →
      CounterInv params (runOps params ops st) := by
  induction ops with
  | nil => intro st _ h; exact h
  | cons op rest ih =>
      intro st hpen h
      have hstep : CounterInv params (applyOp params st op) := by
        refine counterInv_applyOp params st op hg (fun id x hop => ?_) h
        subst hop
        simp only [nonNegPenalties] at hpen
        by_cases hx : 0 ≤ x
        · exact hx
        · rw [if_neg hx] at hpen
          cases hpen
      have hrest : nonNegPenalties rest = true := by
        cases op with
        | addPenaltyOp id x =>
            simp only [nonNegPenalties] at hpen
            by_cases hx : 0 ≤ x
            · rwa [if_pos hx] at hpen
            · rw [if_neg hx] at hpen
              cases hpen
        | addPeerOp id ips => exact hpen
        | removePeerOp id now => exact hpen
        | graftOp id topic now => exact hpen
        | pruneOp id topic => exact hpen
        | deliverOp msg now => exact hpen
        | rejectOp msg reason now => exact hpen
        | duplicateOp msg now => exact hpen
        | refreshOp now => exact hpen
      exact ih _ hrest hstep

/-- C2 (amended, requiring validated parameter bounds and non-negative
`AddPenalty` amounts, which is what the overlay feeds): after every
sequence of ingest-hook calls and `_refreshScores` runs starting from
the fresh engine, for every peer and topic the four decayed counters
and `behaviourPenalty` are ≥ 0, with `firstMessageDeliveries` and
`meshMessageDeliveries` within their caps. -/
theorem claim2_counter_bounds (params : PeerScoreParams) (ops : List Op)
    (hg : GoodParams params) (hpen : nonNegPenalties ops = true) :
    CounterInv params (runOps params ops emptyState) :=
  counterInv_runOps params ops hg emptyState hpen
    (fun e he => by simp [emptyState] at he)

/-- The two-call sequence refuting the unconditional claim. -/
def opsBad : List Op := [Op.addPeerOp "p" [], Op.addPenaltyOp "p" (-1)]

/-- C2 counterexample: `AddPenalty` accepts any amount, so a negative
penalty drives `behaviourPenalty` below 0, refuting the claim for
arbitrary ingest sequences. -/
theorem claim2_counterexample :
    ¬ CounterInv paramsW (runOps paramsW opsBad emptyState) := by
  intro h
  have hlk : (lookupA (runOps paramsW opsBad emptyState).peerStats
      "p").map PeerStats.behaviourPenalty = some (-1) := by
    norm_num +decide [runOps, applyOp, addPeer, addPenalty, createPeerStats,
      _setIPs, insertA, lookupA, emptyState, opsBad]
  cases hcase : lookupA (runOps paramsW opsBad emptyState).peerStats "p" with
  | none => rw [hcase] at hlk; cases hlk
  | some ps =>
      have h0 := (h ("p", ps) (mem_of_lookupA _ _ _ hcase)).1
      rw [hcase] at hlk
      simp at hlk
      rw [hlk] at h0
      norm_num at h0

/-- A sequence exercising the hooks with non-negative penalties. -/
def opsGood : List Op :=
  [Op.addPeerOp "A" ["ip1"], Op.graftOp "A" "t" 0, Op.deliverOp msgW 1,
   Op.duplicateOp msgW 2, Op.addPenaltyOp "A" 1, Op.refreshOp 3,
   Op.pruneOp "A" "t", Op.rejectOp msgW "other-reason" 4]

/-- Witness for C2: good params and a concrete well-formed sequence. -/
theorem claim2_counter_bounds_witness :
    GoodParams paramsW ∧ nonNegPenalties opsGood = true ∧
    CounterInv paramsW (runOps paramsW opsGood emptyState) := by
  have hg : GoodParams paramsW := by
    refine ⟨fun e he => ?_, by norm_num [paramsW], by norm_num [paramsW]⟩
    simp only [paramsW, List.mem_singleton] at he
    rw [he]
    refine ⟨?_, ?_, ?_, ?_, ?_, ?_, ?_, ?_, ?_, ?_⟩ <;>
      norm_num [tpW, GoodTopicParams]
  have hpen : nonNegPenalties opsGood = true := by
    norm_num [opsGood, nonNegPenalties]
  exact ⟨hg, hpen, claim2_counter_bounds paramsW opsGood hg hpen⟩

/-! ## Claim C9 — `stop` clears state -/

/-- A state whose ticker is not running but which still holds peer
stats: `stop` takes the early-return branch on it. -/
def st9 : PeerScoreState :=
  { peerStats := [("p", createPeerStats true)], peerIPs := [],
    deliveryRecords := ⟨[], []⟩, running := false }

/-- C9 counterexample: when the background ticker is not running,
`stop` logs and returns early without clearing, so a state with
non-empty `peerStats` keeps it — refuting "after any call to stop(),
regardless of the engine's prior state, … peerStats … are all empty". -/
theorem claim9_counterexample : (stop st9).peerStats ≠ [] := by
  simp [stop, st9]

/-- C9 (amended): a `stop` call while the ticker is running cancels it
and clears `peerStats`, `peerIPs` and `deliveryRecords`; when the
ticker is not running, `stop` is a complete no-op. -/
theorem claim9_stop_clears (st : PeerScoreState) :
    (st.running = true →
      (stop st).running = false ∧ (stop st).peerStats = [] ∧
      (stop st).peerIPs = [] ∧ (stop st).deliveryRecords.records = [] ∧
      (stop st).deliveryRecords.queue = []) ∧
    (st.running = false → stop st = st) := by
  constructor
  · intro h
    simp [stop, h]
  · intro h
    simp [stop, h]

/-- Witness for C9 at a concrete running state. -/
theorem claim9_stop_clears_witness :
    (stop { st9 with running := true }).peerStats = [] ∧
    stop st9 = st9 :=
  ⟨((claim9_stop_clears { st9 with running := true }).1 rfl).2.1,
   (claim9_stop_clears st9).2 rfl⟩

/-! ## Claim C4 — IP index consistency -/

/-- Peer `p` is in the `peerIPs` bucket of `ip`. -/
def inBucket (m : List (String × List String)) (ip p : String) : Prop :=
  ∃ b, lookupA m ip = some b ∧ p ∈ b

/-- Every bucket of the index is non-empty. -/
def NonemptyBuckets (m : List (String × List String)) : Prop :=
  ∀ ip b, lookupA m ip = some b → b ≠ []

/-- The well-formedness bundle for the `peerIPs` index. -/
def IPWF (m : List (String × List String)) : Prop :=
  IPMapOK m ∧ NonemptyBuckets m

/-- The `peer → its IP list` view of the peer-stats map. -/
def SView (stats : List (String × PeerStats)) :
    String → Option (List String) :=
  fun p => (lookupA stats p).map PeerStats.ips

/-- The index agrees with an abstract `peer → IPs` view. -/
def CorrS (m : List (String × List String))
    (S : String → Option (List String)) : Prop :=
  ∀ ip p, inBucket m ip p ↔ ∃ l, S p = some l ∧ ip ∈ l

theorem corrS_congr (m : List (String × List String))
    (S S' : String → Option (List String)) (h : CorrS m S)
    (heq : ∀ p, S p = S' p) : CorrS m S' := by
  intro ip p
  rw [← heq p]
  exact h ip p

/-- The exact formalization of the C4 claim: membership in `peerIPs`
buckets coincides with the per-peer `ips` lists, and no bucket is
empty. -/
def IPIndexConsistent (st : PeerScoreState) : Prop :=
  (∀ ip b, lookupA st.peerIPs ip = some b → b ≠ []) ∧
  (∀ ip p, inBucket st.peerIPs ip p ↔
    ∃ ps, lookupA st.peerStats p = some ps ∧ ip ∈ ps.ips)

theorem addIPStep_wf (id : String) (old : List String)
    (m : List (String × List String)) (ip0 : String) (h : IPWF m) :
    IPWF (addIPStep id old m ip0) := by
  unfold addIPStep
  by_cases hin : ip0 ∈ old
  · rw [if_pos hin]
    exact h
  · rw [if_neg hin]
    obtain ⟨⟨hk, hb⟩, hne⟩ := h
    refine ⟨⟨nodupKeys_insertA _ _ _ hk, fun ip b hlk => ?_⟩, fun ip b hlk => ?_⟩
    · rw [lookupA_insertA] at hlk
      by_cases hip : ip = ip0
      · rw [if_pos hip] at hlk
        cases hlk
        unfold addIfAbsent
        by_cases hmem : id ∈ (lookupA m ip0).getD []
        · rw [if_pos hmem]
          cases hl : lookupA m ip0 with
          | none => simp
          | some b0 => simpa [hl] using hb ip0 b0 hl
        · rw [if_neg hmem]
          cases hl : lookupA m ip0 with
          | none => simp
          | some b0 =>
              rw [hl] at hmem
              simp only [Option.getD_some] at hmem
              simp only [hl, Option.getD_some]
              exact (hb ip0 b0 hl).append (by simp)
                (by simpa [List.disjoint_singleton] using hmem)
      · rw [if_neg hip] at hlk
        exact hb ip b hlk
    · rw [lookupA_insertA] at hlk
      by_cases hip : ip = ip0
      · rw [if_pos hip] at hlk
        cases hlk
        unfold addIfAbsent
        by_cases hmem : id ∈ (lookupA m ip0).getD []
        · rw [if_pos hmem]
          intro hemp
          rw [hemp] at hmem
          cases hmem
        · rw [if_neg hmem]
          simp
      · rw [if_neg hip] at hlk
        exact hne ip b hlk

theorem addIPStep_inBucket_ne (id : String) (old : List String)
    (m : List (String × List String)) (ip0 ip q : String) (hq : q ≠ id) :
    inBucket (addIPStep id old m ip0) ip q ↔ inBucket m ip q := by
  unfold addIPStep
  by_cases hin : ip0 ∈ old
  · rw [if_pos hin]
  · rw [if_neg hin]
    unfold inBucket
    constructor
    · rintro ⟨b, hlk, hmem⟩
      rw [lookupA_insertA] at hlk
      by_cases hip : ip = ip0
      · rw [if_pos hip] at hlk
        cases hlk
        have hmem' : q ∈ (lookupA m ip0).getD [] := by
          unfold addIfAbsent at hmem
          by_cases hid : id ∈ (lookupA m ip0).getD []
          · rwa [if_pos hid] at hmem
          · rw [if_neg hid] at hmem
            rcases List.mem_append.mp hmem with h' | h'
            · exact h'
            · simp at h'
              exact absurd h' hq
        cases hl : lookupA m ip0 with
        | none => rw [hl] at hmem'; cases hmem'
        | some b0 =>
            rw [hl] at hmem'
            exact ⟨b0, by rw [hip, hl], hmem'⟩
      · rw [if_neg hip] at hlk
        exact ⟨b, hlk, hmem⟩
    · rintro ⟨b, hlk, hmem⟩
      rw [lookupA_insertA]
      by_cases hip : ip = ip0
      · refine ⟨addIfAbsent id ((lookupA m ip0).getD []), by rw [if_pos hip], ?_⟩
        have : q ∈ (lookupA m ip0).getD [] := by
          rw [← hip, hlk]
          exact hmem
        unfold addIfAbsent
        by_cases hid : id ∈ (lookupA m ip0).getD []
        · rwa [if_pos hid]
        · rw [if_neg hid]
          exact List.mem_append.mpr (Or.inl this)
      · exact ⟨b, by rw [if_neg hip]; exact hlk, hmem⟩

theorem addIPStep_inBucket_id (id : String) (old : List String)
    (m : List (String × List String)) (ip0 ip : String) :
    inBucket (addIPStep id old m ip0) ip id ↔
      (inBucket m ip id ∨ (ip = ip0 ∧ ip0 ∉ old)) := by
  unfold addIPStep
  by_cases hin : ip0 ∈ old
  · rw [if_pos hin]
    simp [hin]
  · rw [if_neg hin]
    unfold inBucket
    constructor
    · rintro ⟨b, hlk, hmem⟩
      rw [lookupA_insertA] at hlk
      by_cases hip : ip = ip0
      · exact Or.inr ⟨hip, hin⟩
      · rw [if_neg hip] at hlk
        exact Or.inl ⟨b, hlk, hmem⟩
    · intro h
      rcases h with ⟨b, hlk, hmem⟩ | ⟨hip, _⟩
      · rw [lookupA_insertA]
        by_cases hip : ip = ip0
        · refine ⟨addIfAbsent id ((lookupA m ip0).getD []),
            by rw [if_pos hip], ?_⟩
          unfold addIfAbsent
          by_cases hid : id ∈ (lookupA m ip0).getD []
          · rwa [if_pos hid]
          · rw [if_neg hid]
            have : id ∈ (lookupA m ip0).getD [] := by
              rw [← hip, hlk]
              exact hmem
            exact absurd this hid
        · exact ⟨b, by rw [if_neg hip]; exact hlk, hmem⟩
      · refine ⟨addIfAbsent id ((lookupA m ip0).getD []), ?_, ?_⟩
        · rw [lookupA_insertA, if_pos hip]
        · unfold addIfAbsent
          by_cases hid : id ∈ (lookupA m ip0).getD []
          · rwa [if_pos hid]
          · rw [if_neg hid]
            simp

theorem removeIPStep_lookup_ne (q ip0 ip : String)
    (m : List (String × List String)) (hip : ip ≠ ip0) :
    lookupA (removeIPStep q m ip0) ip = lookupA m ip := by
  cases hl : lookupA m ip0 with
  | none => simp [removeIPStep, hl]
  | some b =>
      simp only [removeIPStep, hl]
      by_cases he : b.erase q = []
      · rw [if_pos he]
        exact lookupA_eraseA_ne m ip0 ip hip
      · rw [if_neg he, lookupA_insertA, if_neg hip]

theorem removeIPStep_wf (id : String) (m : List (String × List String))
    (ip0 : String) (h : IPWF m) : IPWF (removeIPStep id m ip0) := by
  refine ⟨removeIPStep_ok id m ip0 h.1, fun ip b hlk => ?_⟩
  cases hl : lookupA m ip0 with
  | none =>
      simp only [removeIPStep, hl] at hlk
      exact h.2 ip b hlk
  | some b0 =>
      simp only [removeIPStep, hl] at hlk
      by_cases he : b0.erase id = []
      · rw [if_pos he] at hlk
        by_cases hip : ip = ip0
        · subst hip
          rw [lookupA_eraseA_self m ip h.1.1] at hlk
          cases hlk
        · rw [lookupA_eraseA_ne m ip0 ip hip] at hlk
          exact h.2 ip b hlk
      · rw [if_neg he, lookupA_insertA] at hlk
        by_cases hip : ip = ip0
        · rw [if_pos hip] at hlk
          cases hlk
          exact he
        · rw [if_neg hip] at hlk
          exact h.2 ip b hlk

theorem removeIPStep_inBucket_ne (id ip0 ip q : String)
    (m : List (String × List String)) (hq : q ≠ id) (hk : NodupKeys m) :
    inBucket (removeIPStep id m ip0) ip q ↔ inBucket m ip q := by
  by_cases hip : ip = ip0
  · subst hip
    cases hl : lookupA m ip with
    | none => unfold inBucket; simp [removeIPStep, hl]
    | some b =>
        unfold inBucket
        simp only [removeIPStep, hl]
        by_cases he : b.erase id = []
        · rw [if_pos he]
          constructor
          · rintro ⟨b', hlk, hm⟩
            rw [lookupA_eraseA_self m ip hk] at hlk
            cases hlk
          · rintro ⟨b', hlk, hm⟩
            cases hlk
            have hq' : q ∈ b.erase id := (List.mem_erase_of_ne hq).mpr hm
            rw [he] at hq'
            cases hq'
        · rw [if_neg he]
          constructor
          · rintro ⟨b', hlk, hm⟩
            rw [lookupA_insertA, if_pos rfl] at hlk
            cases hlk
            exact ⟨b, rfl, List.mem_of_mem_erase hm⟩
          · rintro ⟨b', hlk, hm⟩
            cases hlk
            exact ⟨b.erase id, by rw [lookupA_insertA, if_pos rfl],
              (List.mem_erase_of_ne hq).mpr hm⟩
  · unfold inBucket
    rw [removeIPStep_lookup_ne id ip0 ip m hip]

theorem removeIPStep_inBucket_id_other (id ip0 ip : String)
    (m : List (String × List String)) (hip : ip ≠ ip0) :
    inBucket (removeIPStep id m ip0) ip id ↔ inBucket m ip id := by
  unfold inBucket
  rw [removeIPStep_lookup_ne id ip0 ip m hip]

theorem foldAdd_wf (id : String) (old : List String) (new : List String) :
    ∀ m, IPWF m → IPWF (new.foldl (addIPStep id old) m) := by
  induction new with
  | nil => intro m h; exact h
  | cons ip0 rest ih =>
      intro m h
      exact ih _ (addIPStep_wf id old m ip0 h)

theorem foldAdd_ne (id : String) (old : List String) (new : List String)
    (ip q : String) (hq : q ≠ id) :
    ∀ m, inBucket (new.foldl (addIPStep id old) m) ip q ↔ inBucket m ip q := by
  induction new with
  | nil => intro m; rfl
  | cons ip0 rest ih =>
      intro m
      rw [List.foldl_cons, ih (addIPStep id old m ip0),
        addIPStep_inBucket_ne id old m ip0 ip q hq]

theorem foldAdd_id (id : String) (old : List String) (new : List String)
    (ip : String) :
    ∀ m, inBucket (new.foldl (addIPStep id old) m) ip id ↔
      (inBucket m ip id ∨ (ip ∈ new ∧ ip ∉ old)) := by
  induction new with
  | nil => intro m; simp
  | cons ip0 rest ih =>
      intro m
      rw [List.foldl_cons, ih (addIPStep id old m ip0),
        addIPStep_inBucket_id id old m ip0 ip]
      constructor
      · intro h
        rcases h with (h | ⟨hip, hip0⟩) | ⟨hmem, hold⟩
        · exact Or.inl h
        · subst hip
          exact Or.inr ⟨List.mem_cons_self _ _, hip0⟩
        · exact Or.inr ⟨List.mem_cons_of_mem _ hmem, hold⟩
      · intro h
        rcases h with h | ⟨hmem, hold⟩
        · exact Or.inl (Or.inl h)
        · rcases List.mem_cons.mp hmem with rfl | hmem'
          · exact Or.inl (Or.inr ⟨rfl, hold⟩)
          · exact Or.inr ⟨hmem', hold⟩

theorem foldRemove_wf (id : String) (new : List String) (old : List String) :
    ∀ m, IPWF m →
      IPWF (old.foldl
        (fun m ip => if ip ∈ new then m else removeIPStep id m ip) m) := by
  induction old with
  | nil => intro m h; exact h
  | cons ip0 rest ih =>
      intro m h
      by_cases hg : ip0 ∈ new
      · simp only [List.foldl_cons, if_pos hg]
        exact ih m h
      · simp only [List.foldl_cons, if_neg hg]
        exact ih _ (removeIPStep_wf id m ip0 h)

theorem foldRemove_ne (id : String) (new : List String) (old : List String)
    (ip q : String) (hq : q ≠ id) :
    ∀ m, IPWF m →
      (inBucket (old.foldl
        (fun m ip => if ip ∈ new then m else removeIPStep id m ip) m) ip q ↔
        inBucket m ip q) := by
  induction old with
  | nil => intro m _; rfl
  | cons ip0 rest ih =>
      intro m h
      by_cases hg : ip0 ∈ new
      · simp only [List.foldl_cons, if_pos hg]
        exact ih m h
      · simp only [List.foldl_cons, if_neg hg]
        rw [ih _ (removeIPStep_wf id m ip0 h),
          removeIPStep_inBucket_ne id ip0 ip q m hq h.1.1]

theorem foldRemove_id (id : String) (new : List String) (old : List String)
    (ip : String) :
    ∀ m, IPWF m →
      (inBucket (old.foldl
        (fun m ip => if ip ∈ new then m else removeIPStep id m ip) m) ip id ↔
        (inBucket m ip id ∧ ¬(ip ∈ old ∧ ip ∉ new))) := by
  induction old with
  | nil => intro m _; simp
  | cons ip0 rest ih =>
      intro m h
      by_cases hg : ip0 ∈ new
      · simp only [List.foldl_cons, if_pos hg]
        rw [ih m h]
        by_cases hip : ip = ip0
        · subst hip
          simp [hg]
        · constructor
          · rintro ⟨hb, hn⟩
            refine ⟨hb, fun hc => ?_⟩
            rcases List.mem_cons.mp hc.1 with h' | h'
            · exact hip h'
            · exact hn ⟨h', hc.2⟩
          · rintro ⟨hb, hn⟩
            exact ⟨hb, fun hc => hn ⟨List.mem_cons_of_mem _ hc.1, hc.2⟩⟩
      · simp only [List.foldl_cons, if_neg hg]
        rw [ih _ (removeIPStep_wf id m ip0 h)]
        by_cases hip : ip = ip0
        · subst hip
          have hself : ¬ inBucket (removeIPStep id m ip) ip id := by
            rintro ⟨b, hlk, hm⟩
            exact removeIPStep_self id ip m h.1 b hlk hm
          simp [hself, hg]
        · rw [removeIPStep_inBucket_id_other id ip0 ip m hip]
          constructor
          · rintro ⟨hb, hn⟩
            refine ⟨hb, fun hc => ?_⟩
            rcases List.mem_cons.mp hc.1 with h' | h'
            · exact hip h'
            · exact hn ⟨h', hc.2⟩
          · rintro ⟨hb, hn⟩
            exact ⟨hb, fun hc => hn ⟨List.mem_cons_of_mem _ hc.1, hc.2⟩⟩

theorem setIPs_wf (id : String) (new old : List String)
    (m : List (String × List String)) (h : IPWF m) :
    IPWF (_setIPs id new old m) :=
  foldRemove_wf id new old _ (foldAdd_wf id old new m h)

theorem setIPs_inBucket_ne (id : String) (new old : List String)
    (m : List (String × List String)) (ip q : String) (hq : q ≠ id)
    (h : IPWF m) :
    inBucket (_setIPs id new old m) ip q ↔ inBucket m ip q := by
  unfold _setIPs
  rw [foldRemove_ne id new old ip q hq _ (foldAdd_wf id old new m h),
    foldAdd_ne id old new ip q hq m]

theorem setIPs_inBucket_id (id : String) (new old : List String)
    (m : List (String × List String)) (h : IPWF m)
    (hid : ∀ ip, inBucket m ip id ↔ ip ∈ old) (ip : String) :
    inBucket (_setIPs id new old m) ip id ↔ ip ∈ new := by
  unfold _setIPs
  rw [foldRemove_id id new old ip _ (foldAdd_wf id old new m h),
    foldAdd_id id old new ip m, hid ip]
  by_cases h1 : ip ∈ old <;> by_cases h2 : ip ∈ new <;> simp [h1, h2]

theorem removeIPs_wf (id : String) (ips : List String) :
    ∀ m, IPWF m → IPWF (_removeIPs id ips m) := by
  induction ips with
  | nil => intro m h; exact h
  | cons ip0 rest ih =>
      intro m h
      exact ih _ (removeIPStep_wf id m ip0 h)

theorem removeIPs_inBucket_ne (id : String) (ips : List String)
    (ip q : String) (hq : q ≠ id) :
    ∀ m, IPWF m → (inBucket (_removeIPs id ips m) ip q ↔ inBucket m ip q) := by
  induction ips with
  | nil => intro m _; rfl
  | cons ip0 rest ih =>
      intro m h
      show inBucket (_removeIPs id rest (removeIPStep id m ip0)) ip q ↔ _
      rw [ih _ (removeIPStep_wf id m ip0 h),
        removeIPStep_inBucket_ne id ip0 ip q m hq h.1.1]

theorem removeIPs_lookup_not_mem (id : String) (ips : List String)
    (ip : String) (hip : ip ∉ ips) :
    ∀ m, lookupA (_removeIPs id ips m) ip = lookupA m ip := by
  induction ips with
  | nil => intro m; rfl
  | cons ip0 rest ih =>
      intro m
      simp only [List.mem_cons, not_or] at hip
      show lookupA (_removeIPs id rest (removeIPStep id m ip0)) ip = _
      rw [ih hip.2, removeIPStep_lookup_ne id ip0 ip m hip.1]

theorem removeIPs_inBucket_id_none (id : String) (ips : List String)
    (m : List (String × List String)) (h : IPWF m)
    (hid : ∀ ip, inBucket m ip id ↔ ip ∈ ips) (ip : String) :
    ¬ inBucket (_removeIPs id ips m) ip id := by
  by_cases hmem : ip ∈ ips
  · rintro ⟨b, hlk, hm⟩
    exact removeIPs_self id ips m h.1 ip hmem b hlk hm
  · rintro ⟨b, hlk, hm⟩
    rw [removeIPs_lookup_not_mem id ips ip hmem m] at hlk
    exact hmem ((hid ip).mp ⟨b, hlk, hm⟩)

/-- One call of the three operations that touch the IP index, with the
external inputs it consumes. -/
inductive IPOp where
  | addPeerIPOp (id : String) (ips : List String)
  | removePeerIPOp (id : String) (now : ℚ)
  | updateIPsOp (getIPs : String → List String)

/-- Dispatch one `IPOp` to the corresponding tracer.ts method. -/
def applyIPOp (params : PeerScoreParams) (st : PeerScoreState) :
    IPOp → PeerScoreState
  | IPOp.addPeerIPOp id ips => addPeer id ips st
  | IPOp.removePeerIPOp id now => removePeer params id now st
  | IPOp.updateIPsOp getIPs => _updateIPs getIPs st

/-- Run a sequence of IP-touching calls left to right. -/
def runIPOps (params : PeerScoreParams) (ops : List IPOp)
    (st : PeerScoreState) : PeerScoreState :=
  ops.foldl (applyIPOp params) st

/-- `AddPeer` is only invoked for peers that have no stats yet (the
overlay adds a peer once per connection, after any removal). -/
def safeIPOps (params : PeerScoreParams) : List IPOp → PeerScoreState → Bool
  | [], _ => true
  | op :: rest, st =>
      (match op with
       | IPOp.addPeerIPOp id _ => (lookupA st.peerStats id).isNone
       | _ => true) && safeIPOps params rest (applyIPOp params st op)

/-- The strengthened inductive invariant behind C4. -/
def IPInv (st : PeerScoreState) : Prop :=
  NodupKeys st.peerStats ∧ IPWF st.peerIPs ∧
  CorrS st.peerIPs (SView st.peerStats)

theorem lookupA_of_mem_nodup {α : Type} (l : List (String × α))
    (e : String × α) (hk : NodupKeys l) (he : e ∈ l) :
    lookupA l e.1 = some e.2 := by
  induction l with
  | nil => cases he
  | cons e0 rest ih =>
      simp only [NodupKeys, List.map_cons, List.nodup_cons] at hk
      rcases List.mem_cons.mp he with rfl | hmem
      · simp [lookupA]
      · have hne : e0.1 ≠ e.1 := by
          intro hh
          exact hk.1 (hh ▸ List.mem_map_of_mem Prod.fst hmem)
        simp only [lookupA, if_neg hne]
        exact ih hk.2 hmem

theorem keys_mapValues {α β : Type} (l : List (String × α))
    (g : String → α → β) :
    (l.map (fun e => (e.1, g e.1 e.2))).map Prod.fst = l.map Prod.fst := by
  induction l with
  | nil => rfl
  | cons e rest ih => simp [ih]

theorem ipIndexConsistent_of_inv (st : PeerScoreState) (h : IPInv st) :
    IPIndexConsistent st := by
  obtain ⟨_, hwf, hcorr⟩ := h
  refine ⟨hwf.2, fun ip p => ?_⟩
  rw [hcorr ip p]
  unfold SView
  cases hps : lookupA st.peerStats p with
  | none => simp
  | some ps => simp

theorem ipInv_empty : IPInv emptyState := by
  refine ⟨by simp [NodupKeys, emptyState],
    ⟨⟨by simp [NodupKeys, emptyState], fun ip b h => by cases h⟩,
      fun ip b h => by cases h⟩,
    fun ip p => ?_⟩
  constructor
  · rintro ⟨b, hlk, _⟩
    cases hlk
  · rintro ⟨l, hS, _⟩
    simp [SView, emptyState, lookupA] at hS

theorem ipInv_addPeer (st : PeerScoreState) (id : String) (ips : List String)
    (h : IPInv st) (hnew : lookupA st.peerStats id = none) :
    IPInv (addPeer id ips st) := by
  obtain ⟨hk, hwf, hcorr⟩ := h
  have hid : ∀ ip, inBucket st.peerIPs ip id ↔ ip ∈ ([] : List String) := by
    intro ip
    simp only [List.not_mem_nil, iff_false]
    intro hb
    obtain ⟨l, hS, _⟩ := (hcorr ip id).mp hb
    rw [SView, hnew] at hS
    cases hS
  have haddStats : (addPeer id ips st).peerStats =
      insertA st.peerStats id { createPeerStats true with ips := ips } := rfl
  have haddIPs : (addPeer id ips st).peerIPs =
      _setIPs id ips [] st.peerIPs := rfl
  refine ⟨?_, ?_, ?_⟩
  · rw [haddStats]
    exact nodupKeys_insertA _ _ _ hk
  · rw [haddIPs]
    exact setIPs_wf id ips [] st.peerIPs hwf
  · intro ip p
    rw [haddIPs, SView, haddStats, lookupA_insertA]
    by_cases hp : p = id
    · subst hp
      rw [setIPs_inBucket_id p ips [] st.peerIPs hwf hid ip]
      simp
    · rw [setIPs_inBucket_ne id ips [] st.peerIPs ip p hp hwf, if_neg hp,
        hcorr ip p]
      rfl

theorem ipInv_removePeer (params : PeerScoreParams) (st : PeerScoreState)
    (id : String) (now : ℚ) (h : IPInv st) :
    IPInv (removePeer params id now st) := by
  obtain ⟨hk, hwf, hcorr⟩ := h
  cases hps : lookupA st.peerStats id with
  | none =>
      simp only [removePeer, hps]
      exact ⟨hk, hwf, hcorr⟩
  | some ps =>
      have hid : ∀ ip, inBucket st.peerIPs ip id ↔ ip ∈ ps.ips := by
        intro ip
        rw [hcorr ip id]
        unfold SView
        rw [hps]
        simp
      by_cases hsc : 0 < score params st id
      · simp only [removePeer, hps, if_pos hsc]
        refine ⟨nodupKeys_eraseA _ _ hk,
          removeIPs_wf id ps.ips st.peerIPs hwf, fun ip p => ?_⟩
        unfold SView
        by_cases hp : p = id
        · subst hp
          rw [lookupA_eraseA_self _ _ hk]
          simp only [Option.map_none]
          constructor
          · intro hb
            exact absurd hb
              (removeIPs_inBucket_id_none p ps.ips st.peerIPs hwf hid ip)
          · rintro ⟨l, hS, _⟩
            cases hS
        · rw [lookupA_eraseA_ne _ _ _ hp,
            removeIPs_inBucket_ne id ps.ips ip p hp st.peerIPs hwf,
            hcorr ip p]
          rfl
      · simp only [removePeer, hps, if_neg hsc]
        refine ⟨nodupKeys_insertA _ _ _ hk, hwf, fun ip p => ?_⟩
        unfold SView
        rw [lookupA_insertA]
        by_cases hp : p = id
        · subst hp
          rw [if_pos rfl]
          rw [hid ip]
          simp
        · rw [if_neg hp, hcorr ip p]
          rfl

theorem fold_setIPs_corr (g : String → List String) :
    ∀ (l : List (String × PeerStats)) (m : List (String × List String))
      (S : String → Option (List String)),
      (l.map Prod.fst).Nodup → IPWF m → CorrS m S →
      (∀ e ∈ l, S e.1 = some e.2.ips) →
      IPWF (l.foldl (fun m e => _setIPs e.1 (g e.1) e.2.ips m) m) ∧
      CorrS (l.foldl (fun m e => _setIPs e.1 (g e.1) e.2.ips m) m)
        (fun p => if (lookupA l p).isSome then some (g p) else S p) := by
  intro l
  induction l with
  | nil =>
      intro m S _ hwf hcorr _
      refine ⟨hwf, corrS_congr m S _ hcorr fun p => ?_⟩
      simp [lookupA]
  | cons e rest ih =>
      intro m S hnd hwf hcorr hext
      simp only [List.map_cons, List.nodup_cons] at hnd
      have hSe : S e.1 = some e.2.ips := hext e (List.mem_cons_self _ _)
      have hid : ∀ ip, inBucket m ip e.1 ↔ ip ∈ e.2.ips := by
        intro ip
        rw [hcorr ip e.1, hSe]
        simp
      have hwf1 := setIPs_wf e.1 (g e.1) e.2.ips m hwf
      have hcorr1 : CorrS (_setIPs e.1 (g e.1) e.2.ips m)
          (fun p => if p = e.1 then some (g e.1) else S p) := by
        intro ip p
        by_cases hp : p = e.1
        · subst hp
          rw [setIPs_inBucket_id e.1 (g e.1) e.2.ips m hwf hid ip]
          simp
        · rw [setIPs_inBucket_ne e.1 (g e.1) e.2.ips m ip p hp hwf,
            hcorr ip p]
          simp [hp]
      have hext1 : ∀ e' ∈ rest,
          (fun p => if p = e.1 then some (g e.1) else S p) e'.1 =
            some e'.2.ips := by
        intro e' he'
        have hne : e'.1 ≠ e.1 := by
          intro hh
          exact hnd.1 (hh ▸ List.mem_map_of_mem Prod.fst he')
        simp only [if_neg hne]
        exact hext e' (List.mem_cons_of_mem _ he')
      obtain ⟨hwfr, hcorrr⟩ := ih (_setIPs e.1 (g e.1) e.2.ips m) _ hnd.2
        hwf1 hcorr1 hext1
      refine ⟨hwfr, corrS_congr _ _ _ hcorrr fun p => ?_⟩
      by_cases hp : p = e.1
      · subst hp
        simp only [lookupA, if_pos rfl, Option.isSome_some, if_true]
        by_cases hr : (lookupA rest e.1).isSome
        · simp [hr]
        · simp [hr]
      · simp only [lookupA, if_neg (fun hh : e.1 = p => hp hh.symm)]
        by_cases hr : (lookupA rest p).isSome
        · simp [hr]
        · simp [hr, hp]

theorem updateStats_eq (getIPs : String → List String) (st : PeerScoreState) :
    (_updateIPs getIPs st).peerStats =
      st.peerStats.map
        (fun e => (e.1, ({ e.2 with ips := getIPs e.1 } : PeerStats))) := rfl

theorem keys_updateStats (getIPs : String → List String) :
    ∀ l : List (String × PeerStats),
      ((l.map (fun e => (e.1, ({ e.2 with ips := getIPs e.1 } : PeerStats)))).map
        Prod.fst) = l.map Prod.fst := by
  intro l
  induction l with
  | nil => rfl
  | cons e rest ih => simp [ih]

theorem lookupA_updateStats (getIPs : String → List String) :
    ∀ (l : List (String × PeerStats)) (p : String),
      lookupA (l.map (fun e => (e.1, ({ e.2 with ips := getIPs e.1 } : PeerStats)))) p =
        (lookupA l p).map (fun ps => ({ ps with ips := getIPs p } : PeerStats)) := by
  intro l
  induction l with
  | nil => intro p; rfl
  | cons e rest ih =>
      intro p
      by_cases he : e.1 = p
      · subst he; simp [lookupA, ih]
      · simp [lookupA, he, ih]

theorem ipInv_updateIPs (getIPs : String → List String)
    (st : PeerScoreState) (h : IPInv st) : IPInv (_updateIPs getIPs st) := by
  obtain ⟨hk, hwf, hcorr⟩ := h
  have hext : ∀ e ∈ st.peerStats, SView st.peerStats e.1 = some e.2.ips := by
    intro e he
    unfold SView
    rw [lookupA_of_mem_nodup st.peerStats e hk he]
    rfl
  obtain ⟨hwf', hcorr'⟩ := fold_setIPs_corr getIPs st.peerStats st.peerIPs
    (SView st.peerStats) hk hwf hcorr hext
  refine ⟨?_, hwf', corrS_congr _ _ _ hcorr' fun p => ?_⟩
  · unfold NodupKeys
    rw [updateStats_eq, keys_updateStats]
    exact hk
  · have hlu : lookupA (_updateIPs getIPs st).peerStats p =
        (lookupA st.peerStats p).map
          (fun ps => ({ ps with ips := getIPs p } : PeerStats)) := by
      rw [updateStats_eq, lookupA_updateStats]
    unfold SView
    rw [hlu]
    cases hps : lookupA st.peerStats p with
    | none => simp [SView, hps]
    | some ps => simp [hps]

theorem ipInv_run (params : PeerScoreParams) (ops : List IPOp) :
    ∀ st, safeIPOps params ops st = true → IPInv st →
      IPInv (runIPOps params ops st) := by
  induction ops with
  | nil => intro st _ h; exact h
  | cons op rest ih =>
      intro st hsafe h
      have hsplit := hsafe
      unfold safeIPOps at hsplit
      rw [Bool.and_eq_true] at hsplit
      have hstep : IPInv (applyIPOp params st op) := by
        cases op with
        | addPeerIPOp id ips =>
            have : (lookupA st.peerStats id).isNone = true := hsplit.1
            exact ipInv_addPeer st id ips h (Option.isNone_iff_eq_none.mp this)
        | removePeerIPOp id now => exact ipInv_removePeer params st id now h
        | updateIPsOp getIPs => exact ipInv_updateIPs getIPs st h
      exact ih _ hsplit.2 hstep

/-- C4 (amended, for sequences in which `AddPeer` is only called for
peers that have no stats entry — a repeated `AddPeer` resets the
peer's stats without unregistering its old IPs and breaks the index):
after any such sequence of `AddPeer` / `RemovePeer` / `_updateIPs`
calls from the fresh engine, `peerIPs[ip]` contains `p` iff
`peerStats[p]` exists and its `ips` list contains `ip`, and no bucket
is empty. -/
theorem claim4_ip_index_consistency (params : PeerScoreParams)
    (ops : List IPOp) (hsafe : safeIPOps params ops emptyState = true) :
    IPIndexConsistent (runIPOps params ops emptyState) :=
  ipIndexConsistent_of_inv _ (ipInv_run params ops emptyState hsafe ipInv_empty)

/-- The double-`AddPeer` sequence refuting the unconditional claim. -/
def ipOpsBad : List IPOp :=
  [IPOp.addPeerIPOp "p" ["a"], IPOp.addPeerIPOp "p" ["b"]]

/-- C4 counterexample: calling `AddPeer` again for a known peer
replaces its stats (fresh, empty `ips`) and registers the new IPs
against that empty list, so the old bucket `"a"` still contains `"p"`
while `peerStats["p"].ips = ["b"]` — the claimed equivalence fails. -/
theorem claim4_counterexample :
    ¬ IPIndexConsistent (runIPOps paramsW ipOpsBad emptyState) := by
  intro h
  have hbucket : lookupA (runIPOps paramsW ipOpsBad emptyState).peerIPs "a" =
      some ["p"] := by decide
  have hstats : lookupA (runIPOps paramsW ipOpsBad emptyState).peerStats "p" =
      some { createPeerStats true with ips := ["b"] } := by decide
  have := (h.2 "a" "p").mp ⟨["p"], hbucket, by decide⟩
  obtain ⟨ps, hps, hin⟩ := this
  rw [hstats] at hps
  cases hps
  revert hin
  decide

/-- A safe concrete sequence for the C4 witness. -/
def ipOpsGood : List IPOp :=
  [IPOp.addPeerIPOp "A" ["a"], IPOp.addPeerIPOp "B" ["a", "b"],
   IPOp.updateIPsOp (fun p => if p = "A" then ["c"] else ["a"]),
   IPOp.removePeerIPOp "A" 5]

/-- Witness for C4 at a concrete safe sequence. -/
theorem claim4_ip_index_consistency_witness :
    safeIPOps paramsW ipOpsGood emptyState = true ∧
    IPIndexConsistent (runIPOps paramsW ipOpsGood emptyState) := by
  have hsafe : safeIPOps paramsW ipOpsGood emptyState = true := by decide
  exact ⟨hsafe, claim4_ip_index_consistency paramsW ipOpsGood hsafe⟩

end Gossipsub
